import Mathlib

/-!
Verification of the PE container core (`pe_tools/pe_parser.py`) against its
natural-language specification.

A byte buffer is modelled as `List Nat` (each entry one byte, values `< 256`
for genuine byte buffers).  Python slices `b[i:j]` become `pySlice`, which has
the same clamping behaviour.  Python exceptions are modelled with
`Except String` (or with a `PeFile × Option String` pair for in-place mutators,
pairing the object state at raise time with the raised message).  Machine
integers are plain `Nat`; the source works with Python's unbounded ints, so no
wrap-around is introduced except where the source itself packs a value into a
fixed number of bytes (`le16`/`le32`/`le64`, which keep the low bytes exactly as
`struct.pack` lays them out for in-range values).
-/

namespace PeTools

/-- Python slice `b[a:b]` on a byte list: clamps at both ends, empty when
`a ≥ b`. -/
def pySlice (l : List Nat) (a b : Nat) : List Nat :=
  (l.take b).drop a

/-- Little-endian 2-byte encoding (low bytes of the value, as
`struct.pack("<H", ·)` lays them out for an in-range value). -/
def le16 (n : Nat) : List Nat :=
  [n % 256, n / 256 % 256]

/-- Little-endian 4-byte encoding. -/
def le32 (n : Nat) : List Nat :=
  [n % 256, n / 256 % 256, n / 65536 % 256, n / 16777216 % 256]

/-- Little-endian 8-byte encoding. -/
def le64 (n : Nat) : List Nat :=
  le32 (n % 4294967296) ++ le32 (n / 4294967296)

/-- Value of a little-endian byte list. -/
def leVal : List Nat → Nat
  | [] => 0
  | b :: rest => b + 256 * leVal rest

/-- Read `w` little-endian bytes at offset `i`; `none` when the buffer is too
short (the stream/`load` layer of the blob collaborator fails there). -/
def readLE (l : List Nat) (i w : Nat) : Option Nat :=
  if i + w ≤ l.length then some (leVal (pySlice l i (i + w))) else none

/-- `_align(offs, alignment)` from the source:
`(offs + alignment - 1) // alignment * alignment`.  (For `alignment = 0` the
Python source raises `ZeroDivisionError`; callers guard that case explicitly.) -/
def pe_align (offs alignment : Nat) : Nat :=
  (offs + alignment - 1) / alignment * alignment

instance {e a : Type} [DecidableEq e] [DecidableEq a] : DecidableEq (Except e a) := fun x y =>
  match x, y with
  | Except.error u, Except.error v =>
    if h : u = v then isTrue (by rw [h]) else isFalse (fun hc => h (Except.error.inj hc))
  | Except.ok u, Except.ok v =>
    if h : u = v then isTrue (by rw [h]) else isFalse (fun hc => h (Except.ok.inj hc))
  | Except.error _, Except.ok _ => isFalse (fun hc => Except.noConfusion hc)
  | Except.ok _, Except.error _ => isFalse (fun hc => Except.noConfusion hc)

/-! ## Checksum engine (`pe_checksum`) -/

/-- Sum of the little-endian 16-bit words of an (even-length) byte list; the
trailing odd byte, if any, falls into the catch-all and is ignored — exactly
the words `struct.unpack` would produce never include it, and `pe_checksum`
only reaches this sum on even-length input. -/
def wordSum : List Nat → Nat
  | a :: b :: rest => (a + 256 * b) + wordSum rest
  | _ => 0

/-- The 0x1000-block accumulation loop of `pe_checksum`, followed by the
remainder `struct.unpack('<' + 'H'*(len(blob)//2), bytes(blob))`, which raises
`struct.error` (modelled as `none`) when the remaining length is odd. -/
def blockSum (blob : List Nat) (r : Nat) : Option Nat :=
  if 4096 ≤ blob.length then
    blockSum (blob.drop 4096) (r + wordSum (blob.take 4096))
  else if blob.length % 2 = 0 then some (r + wordSum blob) else none
termination_by blob.length
decreasing_by simp [List.length_drop]; omega

/-- Inner fold loop `while c: r += c & 0xffff; c >>= 16`: sum of the 16-bit
limbs of `c`. -/
def limbSum (c : Nat) : Nat :=
  if c = 0 then 0 else c % 65536 + limbSum (c / 65536)
termination_by c
decreasing_by exact Nat.div_lt_self (Nat.pos_of_ne_zero (by assumption)) (by norm_num)

/-- Outer fold loop `while r > 0xffff: ...` of `pe_checksum`. -/
def foldChecksum (r : Nat) : Nat :=
  if 65535 < r then foldChecksum (limbSum r) else r
termination_by r
decreasing_by
  rename_i h
  have hle : ∀ c : Nat, limbSum c ≤ c := by
    intro c
    induction c using Nat.strong_induction_on with
    | _ c ih =>
      rw [limbSum]
      by_cases h0 : c = 0
      · simp [h0]
      · simp only [if_neg h0]
        have hlt : c / 65536 < c :=
          Nat.div_lt_self (Nat.pos_of_ne_zero h0) (by norm_num)
        have := ih (c / 65536) hlt
        omega
  rw [limbSum]
  have h0 : r ≠ 0 := by omega
  simp only [if_neg h0]
  have hq : 1 ≤ r / 65536 := (Nat.one_le_div_iff (by norm_num)).mpr (by omega)
  have := hle (r / 65536)
  omega

/-- `pe_checksum(blob)`: block-wise 16-bit word sum, carry folding, plus the
total length.  `none` models the `struct.error` raised on an odd-length
buffer. -/
def pe_checksum (blob : List Nat) : Option Nat :=
  (blockSum blob 0).map (fun r => foldChecksum r + blob.length)

/-- The reference checksum described by the specification: sum all
little-endian 16-bit words, fold the accumulator by repeatedly replacing it
with the sum of its 16-bit limbs until it is at most `0xFFFF`, then add the
total length and truncate to 32 bits. -/
def refChecksum (blob : List Nat) : Nat :=
  (foldChecksum (wordSum blob) + blob.length) % 4294967296

/-! ## Header records

Fixed-layout records decoded/encoded by the external record codec
(`structs2.Struct`).  Field order and widths follow the `Struct` declarations
in the source; `pack` reproduces the byte layout little-endian, field by
field. -/

structure FileHeader where
  Machine : Nat
  NumberOfSections : Nat
  TimeDateStamp : Nat
  PointerToSymbolTable : Nat
  NumberOfSymbols : Nat
  SizeOfOptionalHeader : Nat
  Characteristics : Nat
deriving DecidableEq, Repr

structure OptHeader32 where
  MajorLinkerVersion : Nat
  MinorLinkerVersion : Nat
  SizeOfCode : Nat
  SizeOfInitializedData : Nat
  SizeOfUninitializedData : Nat
  AddressOfEntryPoint : Nat
  BaseOfCode : Nat
  BaseOfData : Nat
  ImageBase : Nat
  SectionAlignment : Nat
  FileAlignment : Nat
  MajorOperatingSystemVersion : Nat
  MinorOperatingSystemVersion : Nat
  MajorImageVersion : Nat
  MinorImageVersion : Nat
  MajorSubsystemVersion : Nat
  MinorSubsystemVersion : Nat
  Reserved1 : Nat
  SizeOfImage : Nat
  SizeOfHeaders : Nat
  CheckSum : Nat
  Subsystem : Nat
  DllCharacteristics : Nat
  SizeOfStackReserve : Nat
  SizeOfStackCommit : Nat
  SizeOfHeapReserve : Nat
  SizeOfHeapCommit : Nat
  LoaderFlags : Nat
  NumberOfRvaAndSizes : Nat
deriving DecidableEq, Repr

structure OptHeader64 where
  MajorLinkerVersion : Nat
  MinorLinkerVersion : Nat
  SizeOfCode : Nat
  SizeOfInitializedData : Nat
  SizeOfUninitializedData : Nat
  AddressOfEntryPoint : Nat
  BaseOfCode : Nat
  ImageBase : Nat
  SectionAlignment : Nat
  FileAlignment : Nat
  MajorOperatingSystemVersion : Nat
  MinorOperatingSystemVersion : Nat
  MajorImageVersion : Nat
  MinorImageVersion : Nat
  MajorSubsystemVersion : Nat
  MinorSubsystemVersion : Nat
  Reserved1 : Nat
  SizeOfImage : Nat
  SizeOfHeaders : Nat
  CheckSum : Nat
  Subsystem : Nat
  DllCharacteristics : Nat
  SizeOfStackReserve : Nat
  SizeOfStackCommit : Nat
  SizeOfHeapReserve : Nat
  SizeOfHeapCommit : Nat
  LoaderFlags : Nat
  NumberOfRvaAndSizes : Nat
deriving DecidableEq, Repr

/-- The optional header: one of the two variants, selected by the 16-bit magic
(`0x10B` or `0x20B`, stored by the parser as the stray attribute `sig` on the
record). -/
inductive OptHeader where
  | h32 : OptHeader32 → OptHeader
  | h64 : OptHeader64 → OptHeader
deriving DecidableEq, Repr

def OptHeader.sig : OptHeader → Nat
  | .h32 _ => 0x10b
  | .h64 _ => 0x20b

def OptHeader.FileAlignment : OptHeader → Nat
  | .h32 o => o.FileAlignment
  | .h64 o => o.FileAlignment

def OptHeader.SectionAlignment : OptHeader → Nat
  | .h32 o => o.SectionAlignment
  | .h64 o => o.SectionAlignment

def OptHeader.CheckSum : OptHeader → Nat
  | .h32 o => o.CheckSum
  | .h64 o => o.CheckSum

def OptHeader.NumberOfRvaAndSizes : OptHeader → Nat
  | .h32 o => o.NumberOfRvaAndSizes
  | .h64 o => o.NumberOfRvaAndSizes

/-- `self._opt_header.size`: the record byte size (94 for the 32-bit variant,
110 for the 64-bit one; the 2-byte magic is read separately). -/
def OptHeader.size : OptHeader → Nat
  | .h32 _ => 94
  | .h64 _ => 110

def OptHeader.setCheckSum : OptHeader → Nat → OptHeader
  | .h32 o, v => .h32 { o with CheckSum := v }
  | .h64 o, v => .h64 { o with CheckSum := v }

structure DataDirectory where
  VirtualAddress : Nat
  Size : Nat
deriving DecidableEq, Repr

/-- Section header record.  `VirtualSize` occupies the storage that is aliased
with `PhysicalAddress` in the source declaration (`I:PhysicalAddress:VirtualSize`). -/
structure SectionHeader where
  Name : List Nat
  VirtualSize : Nat
  VirtualAddress : Nat
  SizeOfRawData : Nat
  PointerToRawData : Nat
  PointerToRelocations : Nat
  PointerToLinenumbers : Nat
  NumberOfRelocations : Nat
  NumberOfLinenumbers : Nat
  Characteristics : Nat
deriving DecidableEq, Repr

/-- `_PeSection`: header record plus the (lazy) raw data slice, `none` when
`PointerToRawData == 0`.  The two `stray` fields model attributes that
`_resize_directory` assigns on the `_PeSection` object itself (instead of on
`sec.hdr`); no other code ever sets them, so they start out `none` and reading
them through `_find_vm_hole` raises `AttributeError`. -/
structure PeSection where
  hdr : SectionHeader
  data : Option (List Nat)
  strayVirtualAddress : Option Nat := none
  strayVirtualSize : Option Nat := none
deriving DecidableEq, Repr

/-- `_PeFile`: the parsed layout model.  (`self._blob` is not kept: no method
reads it after `__init__`.) -/
structure PeFile where
  dos_stub : List Nat
  file_header : FileHeader
  opt_header : OptHeader
  data_directories : List DataDirectory
  sections : List PeSection
  trailer_offset : Nat
  trailer : List Nat
  checksum_offs : Nat
deriving DecidableEq, Repr

/-! ## Packing (`.pack()` of the record codec, and `struct.pack` calls) -/

def le8 (n : Nat) : List Nat := [n % 256]

def packFileHeader (h : FileHeader) : List Nat :=
  le16 h.Machine ++ le16 h.NumberOfSections ++ le32 h.TimeDateStamp ++
  le32 h.PointerToSymbolTable ++ le32 h.NumberOfSymbols ++
  le16 h.SizeOfOptionalHeader ++ le16 h.Characteristics

def packOptHeader32 (o : OptHeader32) : List Nat :=
  le8 o.MajorLinkerVersion ++ le8 o.MinorLinkerVersion ++ le32 o.SizeOfCode ++
  le32 o.SizeOfInitializedData ++ le32 o.SizeOfUninitializedData ++
  le32 o.AddressOfEntryPoint ++ le32 o.BaseOfCode ++ le32 o.BaseOfData ++
  le32 o.ImageBase ++ le32 o.SectionAlignment ++ le32 o.FileAlignment ++
  le16 o.MajorOperatingSystemVersion ++ le16 o.MinorOperatingSystemVersion ++
  le16 o.MajorImageVersion ++ le16 o.MinorImageVersion ++
  le16 o.MajorSubsystemVersion ++ le16 o.MinorSubsystemVersion ++
  le32 o.Reserved1 ++ le32 o.SizeOfImage ++ le32 o.SizeOfHeaders ++
  le32 o.CheckSum ++ le16 o.Subsystem ++ le16 o.DllCharacteristics ++
  le32 o.SizeOfStackReserve ++ le32 o.SizeOfStackCommit ++
  le32 o.SizeOfHeapReserve ++ le32 o.SizeOfHeapCommit ++
  le32 o.LoaderFlags ++ le32 o.NumberOfRvaAndSizes

def packOptHeader64 (o : OptHeader64) : List Nat :=
  le8 o.MajorLinkerVersion ++ le8 o.MinorLinkerVersion ++ le32 o.SizeOfCode ++
  le32 o.SizeOfInitializedData ++ le32 o.SizeOfUninitializedData ++
  le32 o.AddressOfEntryPoint ++ le32 o.BaseOfCode ++
  le64 o.ImageBase ++ le32 o.SectionAlignment ++ le32 o.FileAlignment ++
  le16 o.MajorOperatingSystemVersion ++ le16 o.MinorOperatingSystemVersion ++
  le16 o.MajorImageVersion ++ le16 o.MinorImageVersion ++
  le16 o.MajorSubsystemVersion ++ le16 o.MinorSubsystemVersion ++
  le32 o.Reserved1 ++ le32 o.SizeOfImage ++ le32 o.SizeOfHeaders ++
  le32 o.CheckSum ++ le16 o.Subsystem ++ le16 o.DllCharacteristics ++
  le64 o.SizeOfStackReserve ++ le64 o.SizeOfStackCommit ++
  le64 o.SizeOfHeapReserve ++ le64 o.SizeOfHeapCommit ++
  le32 o.LoaderFlags ++ le32 o.NumberOfRvaAndSizes

def packOptHeader : OptHeader → List Nat
  | .h32 o => packOptHeader32 o
  | .h64 o => packOptHeader64 o

def packDataDirectory (dd : DataDirectory) : List Nat :=
  le32 dd.VirtualAddress ++ le32 dd.Size

/-- `'8s'` packing pads with NULs (and truncates) to exactly 8 bytes. -/
def packSectionHeader (h : SectionHeader) : List Nat :=
  (h.Name.take 8 ++ List.replicate (8 - h.Name.length) 0) ++
  le32 h.VirtualSize ++ le32 h.VirtualAddress ++ le32 h.SizeOfRawData ++
  le32 h.PointerToRawData ++ le32 h.PointerToRelocations ++
  le32 h.PointerToLinenumbers ++ le16 h.NumberOfRelocations ++
  le16 h.NumberOfLinenumbers ++ le32 h.Characteristics

/-! ## Python `sorted` (stable sort by key)

Python's `sorted(xs, key=k)` is a stable sort: its result is the unique
arrangement ordered by the pair `(key, original position)`.  We realize it by
decorating each element with its index and insertion-sorting by that
lexicographic (and hence tie-free, total) order. -/

def enumIdx (i : Nat) : List α → List (Nat × α)
  | [] => []
  | a :: l => (i, a) :: enumIdx (i + 1) l

def rLexKey (key : α → Nat) (p q : Nat × α) : Prop :=
  key p.2 < key q.2 ∨ (key p.2 = key q.2 ∧ p.1 ≤ q.1)

instance (key : α → Nat) : DecidableRel (rLexKey key) := fun p q => by
  unfold rLexKey; infer_instance

def pySortBy (key : α → Nat) (l : List α) : List α :=
  (List.insertionSort (rLexKey key) (enumIdx 0 l)).map Prod.snd

/-! ## `_check_vm_overlaps` -/

/-- The body of the `for sec in sorted(...)` loop of `_check_vm_overlaps`:
`prev` is the previously visited section (`None` initially).  A zero
`SectionAlignment` makes the modulo raise `ZeroDivisionError`. -/
def goCheck (sa : Nat) : Option PeSection → List PeSection → Option String
  | _, [] => none
  | prev, sec :: rest =>
    if sa = 0 then some "ZeroDivisionError: integer division or modulo by zero"
    else if sec.hdr.VirtualAddress % sa ≠ 0 then some "sections are misaligned in memory"
    else
      match prev with
      | some pv =>
        if sec.hdr.VirtualAddress < pv.hdr.VirtualAddress + pv.hdr.VirtualSize then
          some "sections overlap in memory"
        else goCheck sa (some sec) rest
      | none => goCheck sa (some sec) rest

def check_vm_overlaps (p : PeFile) : Option String :=
  goCheck p.opt_header.SectionAlignment none
    (pySortBy (fun sec => sec.hdr.VirtualAddress) p.sections)

/-- The pass condition of the overlap test between two sections adjacent in
the sorted order: the earlier one ends at or before the later one starts. -/
def secR (a b : PeSection) : Prop :=
  a.hdr.VirtualAddress + a.hdr.VirtualSize ≤ b.hdr.VirtualAddress

/-! ## Directory lookup and signature removal -/

def IMAGE_DIRECTORY_ENTRY_SECURITY : Nat := 4

/-- `has_directory`: note the guard is `len(dds) < idx`, so `idx = len(dds)`
slips past it and the subscript raises `IndexError`. -/
def has_directory (p : PeFile) (idx : Nat) : Except String Bool :=
  if p.data_directories.length < idx then Except.ok false
  else
    match p.data_directories[idx]? with
    | none => Except.error "IndexError: list index out of range"
    | some dd => Except.ok (decide (dd.VirtualAddress ≠ 0))

structure PySlice where
  start : Nat
  stop : Nat
deriving DecidableEq, Repr

def find_directory (p : PeFile) (idx : Nat) : Except String (Option PySlice) :=
  if p.data_directories.length < idx then Except.ok none
  else
    match p.data_directories[idx]? with
    | none => Except.error "IndexError: list index out of range"
    | some dd =>
      if dd.VirtualAddress = 0 then Except.ok none
      else Except.ok (some ⟨dd.VirtualAddress, dd.VirtualAddress + dd.Size⟩)

/-- `remove_signature`: returns the object state at return/raise time together
with the raised message, if any.  All mutations occur after the last `raise`,
so on an exception the state is unchanged. -/
def remove_signature (p : PeFile) : PeFile × Option String :=
  if p.data_directories.length < IMAGE_DIRECTORY_ENTRY_SECURITY then (p, none)
  else
    match p.data_directories[IMAGE_DIRECTORY_ENTRY_SECURITY]? with
    | none => (p, some "IndexError: list index out of range")
    | some dd =>
      if dd.Size = 0 then (p, none)
      else if dd.VirtualAddress + dd.Size ≠ p.trailer_offset + p.trailer.length then
        (p, some "signature is not at the end of the file")
      else if dd.VirtualAddress < p.trailer_offset then
        (p, some "signature is not contained in the pe trailer")
      else
        ({ p with
            trailer := p.trailer.take (p.trailer.length - dd.Size),
            data_directories := p.data_directories.set IMAGE_DIRECTORY_ENTRY_SECURITY
              { dd with VirtualAddress := 0, Size := 0 } },
         none)

/-! ## `_resize_directory` and its helpers -/

/-- `_get_directory_section`: first section whose virtual range equals
`[start, stop)` exactly (the `vm_stop >= stop and vm_stop == stop` test of the
source collapses to equality). -/
def getDirSectionGo (start stop : Nat) : Nat → List PeSection → Option Nat
  | _, [] => none
  | i, sec :: rest =>
    let vm_start := sec.hdr.VirtualAddress
    let vm_stop := vm_start + sec.hdr.VirtualSize
    if vm_start = start ∧ stop ≤ vm_stop ∧ vm_stop = stop then some i
    else getDirSectionGo start stop (i + 1) rest

def _get_directory_section (p : PeFile) (start stop : Nat) : Option Nat :=
  getDirSectionGo start stop 0 p.sections

def attrErrVA : String := "AttributeError: _PeSection object has no attribute VirtualAddress"

def attrErrVS : String := "AttributeError: _PeSection object has no attribute VirtualSize"

/-- The gap-scanning loop of `_find_vm_hole` over adjacent pairs of the sorted
sections.  It reads `VirtualAddress`/`VirtualSize` directly on the `_PeSection`
objects — attributes that exist only if a (never-reached) growth path had
assigned them — so it raises `AttributeError` for ordinary sections.
`stop - start` is a Python int subtraction, hence compared in `Int`. -/
def findHolePairs (sa size : Nat) : PeSection → List PeSection → Except String (Option PySlice)
  | _, [] => Except.ok none
  | prev, nxt :: rest =>
    match prev.strayVirtualAddress with
    | none => Except.error attrErrVA
    | some pva =>
      match prev.strayVirtualSize with
      | none => Except.error attrErrVS
      | some pvs =>
        let start := pe_align (pva + pvs) sa
        match nxt.strayVirtualAddress with
        | none => Except.error attrErrVA
        | some nva =>
          if (size : Int) ≤ (nva : Int) - (start : Int) then
            Except.ok (some ⟨start, pe_align (start + size) sa⟩)
          else findHolePairs sa size nxt rest

/-- `_find_vm_hole(secs, size)`.  `sorted(secs, key=lambda sec: sec.VirtualAddress)`
computes every key first (raising `AttributeError` at the first section without
the stray attribute); an empty `secs` makes the final `sorted_secs[-1]` raise
`IndexError`. -/
def _find_vm_hole (sa : Nat) (secs : List PeSection) (size : Nat) : Except String PySlice :=
  match secs.mapM (fun sec => sec.strayVirtualAddress) with
  | none => Except.error attrErrVA
  | some _ =>
    match pySortBy (fun sec => sec.strayVirtualAddress.getD 0) secs with
    | [] => Except.error "IndexError: list index out of range"
    | first :: rest =>
      match findHolePairs sa size first rest with
      | Except.error e => Except.error e
      | Except.ok (some sl) => Except.ok sl
      | Except.ok none =>
        let lastSec := (first :: rest).getLast (by simp)
        match lastSec.strayVirtualAddress with
        | none => Except.error attrErrVA
        | some lva =>
          match lastSec.strayVirtualSize with
          | none => Except.error attrErrVS
          | some lvs =>
            let start := pe_align (lva + lvs) sa
            Except.ok ⟨start, pe_align (start + size) sa⟩

/-- `_resize_directory`: state at return/raise time, plus either the raised
message or the returned `(sec_idx, slice)`.  In the relocation branch the
source assigns `sec.VirtualAddress` / `sec.VirtualSize` — attributes of the
`_PeSection` wrapper, not of `sec.hdr` — modelled by the `stray` fields. -/
def _resize_directory (p : PeFile) (idx size : Nat) :
    PeFile × Except String (Nat × PySlice) :=
  match p.data_directories[idx]? with
  | none => (p, Except.error "IndexError: list index out of range")
  | some dd =>
    match _get_directory_section p dd.VirtualAddress (dd.VirtualAddress + dd.Size) with
    | none => (p, Except.error "cannot modify a directory that is not associated with a section")
    | some sec_idx =>
      match p.sections[sec_idx]? with
      | none => (p, Except.error "IndexError: list index out of range")
      | some sec =>
        if size ≤ sec.hdr.VirtualSize then
          let sec' := { sec with hdr := { sec.hdr with VirtualSize := size } }
          let dd' := { dd with Size := size }
          ({ p with
              sections := p.sections.set sec_idx sec',
              data_directories := p.data_directories.set idx dd' },
           Except.ok (sec_idx, ⟨sec.hdr.VirtualAddress, sec.hdr.VirtualAddress + size⟩))
        else
          let other_secs := p.sections.eraseIdx sec_idx
          match _find_vm_hole p.opt_header.SectionAlignment other_secs size with
          | Except.error e => (p, Except.error e)
          | Except.ok sl =>
            let sec' := { sec with
              strayVirtualAddress := some sl.start, strayVirtualSize := some sl.stop }
            let dd' := { dd with VirtualAddress := sl.start, Size := size }
            ({ p with
                sections := p.sections.set sec_idx sec',
                data_directories := p.data_directories.set idx dd' },
             Except.ok (sec_idx, sl))

def resize_directory (p : PeFile) (idx size : Nat) : PeFile × Except String PySlice :=
  match _resize_directory p idx size with
  | (p', Except.error e) => (p', Except.error e)
  | (p', Except.ok (_, sl)) => (p', Except.ok sl)

/-- A finite sequence of `resize_directory` calls; `none` as soon as one of
them raises. -/
def applyResizes : PeFile → List (Nat × Nat) → Option PeFile
  | p, [] => some p
  | p, (idx, size) :: rest =>
    match resize_directory p idx size with
    | (p', Except.ok _) => applyResizes p' rest
    | (_, Except.error _) => none

/-! ## Parser (`_PeFile.__init__`, entry point `parse_pe`)

Reads are positional over the input buffer; a read past the end of the buffer
(which the stream layer of the blob collaborator turns into an exception) is
reported as `"truncated"`.  Error messages that the source builds with
`str.format` (section index/name interpolation) are simplified to their fixed
prefix. -/

def readBytes (B : List Nat) (pos n : Nat) : Option (List Nat) :=
  if pos + n ≤ B.length then some (pySlice B pos (pos + n)) else none

def parseFileHeader (B : List Nat) (pos : Nat) : Option FileHeader :=
  match readLE B pos 2 with
  | none => none
  | some machine =>
  match readLE B (pos + 2) 2 with
  | none => none
  | some nsections =>
  match readLE B (pos + 4) 4 with
  | none => none
  | some tds =>
  match readLE B (pos + 8) 4 with
  | none => none
  | some ptrsym =>
  match readLE B (pos + 12) 4 with
  | none => none
  | some nsym =>
  match readLE B (pos + 16) 2 with
  | none => none
  | some szopt =>
  match readLE B (pos + 18) 2 with
  | none => none
  | some chars =>
  some { Machine := machine, NumberOfSections := nsections, TimeDateStamp := tds,
         PointerToSymbolTable := ptrsym, NumberOfSymbols := nsym,
         SizeOfOptionalHeader := szopt, Characteristics := chars }

def parseOptHeader32 (B : List Nat) (pos : Nat) : Option OptHeader32 :=
  match readLE B pos 1 with
  | none => none
  | some majlv =>
  match readLE B (pos + 1) 1 with
  | none => none
  | some minlv =>
  match readLE B (pos + 2) 4 with
  | none => none
  | some szcode =>
  match readLE B (pos + 6) 4 with
  | none => none
  | some szinit =>
  match readLE B (pos + 10) 4 with
  | none => none
  | some szuninit =>
  match readLE B (pos + 14) 4 with
  | none => none
  | some entry =>
  match readLE B (pos + 18) 4 with
  | none => none
  | some basecode =>
  match readLE B (pos + 22) 4 with
  | none => none
  | some basedata =>
  match readLE B (pos + 26) 4 with
  | none => none
  | some imgbase =>
  match readLE B (pos + 30) 4 with
  | none => none
  | some secalign =>
  match readLE B (pos + 34) 4 with
  | none => none
  | some filealign =>
  match readLE B (pos + 38) 2 with
  | none => none
  | some majosv =>
  match readLE B (pos + 40) 2 with
  | none => none
  | some minosv =>
  match readLE B (pos + 42) 2 with
  | none => none
  | some majimg =>
  match readLE B (pos + 44) 2 with
  | none => none
  | some minimg =>
  match readLE B (pos + 46) 2 with
  | none => none
  | some majsub =>
  match readLE B (pos + 48) 2 with
  | none => none
  | some minsub =>
  match readLE B (pos + 50) 4 with
  | none => none
  | some res1 =>
  match readLE B (pos + 54) 4 with
  | none => none
  | some szimage =>
  match readLE B (pos + 58) 4 with
  | none => none
  | some szheaders =>
  match readLE B (pos + 62) 4 with
  | none => none
  | some chksum =>
  match readLE B (pos + 66) 2 with
  | none => none
  | some subsys =>
  match readLE B (pos + 68) 2 with
  | none => none
  | some dllchars =>
  match readLE B (pos + 70) 4 with
  | none => none
  | some stackres =>
  match readLE B (pos + 74) 4 with
  | none => none
  | some stackcom =>
  match readLE B (pos + 78) 4 with
  | none => none
  | some heapres =>
  match readLE B (pos + 82) 4 with
  | none => none
  | some heapcom =>
  match readLE B (pos + 86) 4 with
  | none => none
  | some loadflags =>
  match readLE B (pos + 90) 4 with
  | none => none
  | some nrva =>
  some { MajorLinkerVersion := majlv, MinorLinkerVersion := minlv, SizeOfCode := szcode,
         SizeOfInitializedData := szinit, SizeOfUninitializedData := szuninit,
         AddressOfEntryPoint := entry, BaseOfCode := basecode, BaseOfData := basedata,
         ImageBase := imgbase, SectionAlignment := secalign, FileAlignment := filealign,
         MajorOperatingSystemVersion := majosv, MinorOperatingSystemVersion := minosv,
         MajorImageVersion := majimg, MinorImageVersion := minimg,
         MajorSubsystemVersion := majsub, MinorSubsystemVersion := minsub, Reserved1 := res1,
         SizeOfImage := szimage, SizeOfHeaders := szheaders, CheckSum := chksum,
         Subsystem := subsys, DllCharacteristics := dllchars, SizeOfStackReserve := stackres,
         SizeOfStackCommit := stackcom, SizeOfHeapReserve := heapres,
         SizeOfHeapCommit := heapcom, LoaderFlags := loadflags, NumberOfRvaAndSizes := nrva }

def parseOptHeader64 (B : List Nat) (pos : Nat) : Option OptHeader64 :=
  match readLE B pos 1 with
  | none => none
  | some majlv =>
  match readLE B (pos + 1) 1 with
  | none => none
  | some minlv =>
  match readLE B (pos + 2) 4 with
  | none => none
  | some szcode =>
  match readLE B (pos + 6) 4 with
  | none => none
  | some szinit =>
  match readLE B (pos + 10) 4 with
  | none => none
  | some szuninit =>
  match readLE B (pos + 14) 4 with
  | none => none
  | some entry =>
  match readLE B (pos + 18) 4 with
  | none => none
  | some basecode =>
  match readLE B (pos + 22) 8 with
  | none => none
  | some imgbase =>
  match readLE B (pos + 30) 4 with
  | none => none
  | some secalign =>
  match readLE B (pos + 34) 4 with
  | none => none
  | some filealign =>
  match readLE B (pos + 38) 2 with
  | none => none
  | some majosv =>
  match readLE B (pos + 40) 2 with
  | none => none
  | some minosv =>
  match readLE B (pos + 42) 2 with
  | none => none
  | some majimg =>
  match readLE B (pos + 44) 2 with
  | none => none
  | some minimg =>
  match readLE B (pos + 46) 2 with
  | none => none
  | some majsub =>
  match readLE B (pos + 48) 2 with
  | none => none
  | some minsub =>
  match readLE B (pos + 50) 4 with
  | none => none
  | some res1 =>
  match readLE B (pos + 54) 4 with
  | none => none
  | some szimage =>
  match readLE B (pos + 58) 4 with
  | none => none
  | some szheaders =>
  match readLE B (pos + 62) 4 with
  | none => none
  | some chksum =>
  match readLE B (pos + 66) 2 with
  | none => none
  | some subsys =>
  match readLE B (pos + 68) 2 with
  | none => none
  | some dllchars =>
  match readLE B (pos + 70) 8 with
  | none => none
  | some stackres =>
  match readLE B (pos + 78) 8 with
  | none => none
  | some stackcom =>
  match readLE B (pos + 86) 8 with
  | none => none
  | some heapres =>
  match readLE B (pos + 94) 8 with
  | none => none
  | some heapcom =>
  match readLE B (pos + 102) 4 with
  | none => none
  | some loadflags =>
  match readLE B (pos + 106) 4 with
  | none => none
  | some nrva =>
  some { MajorLinkerVersion := majlv, MinorLinkerVersion := minlv, SizeOfCode := szcode,
         SizeOfInitializedData := szinit, SizeOfUninitializedData := szuninit,
         AddressOfEntryPoint := entry, BaseOfCode := basecode, ImageBase := imgbase,
         SectionAlignment := secalign, FileAlignment := filealign,
         MajorOperatingSystemVersion := majosv, MinorOperatingSystemVersion := minosv,
         MajorImageVersion := majimg, MinorImageVersion := minimg,
         MajorSubsystemVersion := majsub, MinorSubsystemVersion := minsub, Reserved1 := res1,
         SizeOfImage := szimage, SizeOfHeaders := szheaders, CheckSum := chksum,
         Subsystem := subsys, DllCharacteristics := dllchars, SizeOfStackReserve := stackres,
         SizeOfStackCommit := stackcom, SizeOfHeapReserve := heapres,
         SizeOfHeapCommit := heapcom, LoaderFlags := loadflags, NumberOfRvaAndSizes := nrva }

def parseDataDirectories (B : List Nat) (pos : Nat) : Nat → Option (List DataDirectory)
  | 0 => some []
  | n + 1 =>
    match readLE B pos 4 with
    | none => none
    | some va =>
      match readLE B (pos + 4) 4 with
      | none => none
      | some sz =>
        match parseDataDirectories B (pos + 8) n with
        | none => none
        | some rest => some ({ VirtualAddress := va, Size := sz } :: rest)

def parseSectionHeader (B : List Nat) (pos : Nat) : Option SectionHeader := do
  let name ← readBytes B pos 8
  let vsize ← readLE B (pos + 8) 4
  let vaddr ← readLE B (pos + 12) 4
  let szraw ← readLE B (pos + 16) 4
  let ptrraw ← readLE B (pos + 20) 4
  let ptrreloc ← readLE B (pos + 24) 4
  let ptrline ← readLE B (pos + 28) 4
  let nreloc ← readLE B (pos + 32) 2
  let nline ← readLE B (pos + 34) 2
  let chars ← readLE B (pos + 36) 4
  pure { Name := name, VirtualSize := vsize, VirtualAddress := vaddr,
         SizeOfRawData := szraw, PointerToRawData := ptrraw,
         PointerToRelocations := ptrreloc, PointerToLinenumbers := ptrline,
         NumberOfRelocations := nreloc, NumberOfLinenumbers := nline,
         Characteristics := chars }

/-- `make_pe_section`: alignment checks, then the lazy raw-data slice (absent
when `PointerToRawData == 0`). -/
def make_pe_section (fa : Nat) (blob : List Nat) (hdr : SectionHeader) :
    Except String PeSection :=
  if hdr.PointerToRawData % fa ≠ 0 then
    Except.error "Section is misaligned"
  else if hdr.SizeOfRawData % fa ≠ 0 then
    Except.error "Size of section is misaligned"
  else if hdr.PointerToRawData = 0 then
    Except.ok { hdr := hdr, data := none }
  else
    let d := pySlice blob hdr.PointerToRawData (hdr.PointerToRawData + hdr.SizeOfRawData)
    Except.ok { hdr := hdr, data := some d }

def parseSections (B : List Nat) (fa : Nat) (pos : Nat) : Nat → Except String (List PeSection)
  | 0 => Except.ok []
  | n + 1 =>
    match parseSectionHeader B pos with
    | none => Except.error "truncated"
    | some hdr =>
      match make_pe_section fa B hdr with
      | Except.error e => Except.error e
      | Except.ok sec =>
        match parseSections B fa (pos + 40) n with
        | Except.error e => Except.error e
        | Except.ok rest => Except.ok (sec :: rest)

/-- The hole check over `present_secs` (already sorted by `PointerToRawData`):
each section must start exactly where the previous one ends. -/
def holesOk : List PeSection → Bool
  | [] => true
  | [_] => true
  | a :: b :: rest =>
    (a.hdr.PointerToRawData + a.hdr.SizeOfRawData == b.hdr.PointerToRawData) &&
    holesOk (b :: rest)

/-- Continuation of `_PeFile.__init__` after the optional header has been
decoded: checksum verification, alignment check, directories, sections,
present-section contiguity, trailer, and the final `_check_vm_overlaps`. -/
def parseRest (B : List Nat) (pe_offs : Nat) (hdr : FileHeader) (opt : OptHeader) :
    Except String PeFile :=
  let checksum_offs := pe_offs + 4 + 20 + 4 * 16
  let checksumOk : Except String Unit :=
    if opt.CheckSum = 0 then Except.ok ()
    else
      match pe_checksum (B.take checksum_offs ++ [0, 0, 0, 0] ++ B.drop (checksum_offs + 4)) with
      | none => Except.error "struct.error: unpack requires an even buffer"
      | some real =>
        if opt.CheckSum = real then Except.ok () else Except.error "incorrect checksum"
  match checksumOk with
  | Except.error e => Except.error e
  | Except.ok _ =>
    if opt.FileAlignment = 0 then
      Except.error "IMAGE_OPTIONAL_HEADER.FileAlignment must be nonzero"
    else
      match parseDataDirectories B (pe_offs + 26 + opt.size) opt.NumberOfRvaAndSizes with
      | none => Except.error "truncated"
      | some dds =>
        match parseSections B opt.FileAlignment
            (pe_offs + 26 + opt.size + 8 * opt.NumberOfRvaAndSizes) hdr.NumberOfSections with
        | Except.error e => Except.error e
        | Except.ok sections =>
          let present_secs := pySortBy (fun sec => sec.hdr.PointerToRawData)
            (sections.filter (fun sec => sec.hdr.SizeOfRawData != 0))
          match present_secs.getLast? with
          | none => Except.error "no present sections"
          | some last_sec =>
            if holesOk present_secs then
              let end_of_image := last_sec.hdr.PointerToRawData + last_sec.hdr.SizeOfRawData
              let p : PeFile := {
                dos_stub := B.take pe_offs
                file_header := hdr
                opt_header := opt
                data_directories := dds
                sections := sections
                trailer_offset := end_of_image
                trailer := B.drop end_of_image
                checksum_offs := checksum_offs }
              match check_vm_overlaps p with
              | some e => Except.error e
              | none => Except.ok p
            else Except.error "there are holes between sections"

/-- `parse_pe(blob)` / `_PeFile.__init__`. -/
def parse_pe (B : List Nat) : Except String PeFile :=
  match readLE B 0x3c 2 with
  | none => Except.error "truncated"
  | some pe_offs =>
    if pySlice B pe_offs (pe_offs + 4) = [0x50, 0x45, 0, 0] then
      match parseFileHeader B (pe_offs + 4) with
      | none => Except.error "truncated"
      | some hdr =>
        match readLE B (pe_offs + 24) 2 with
        | none => Except.error "truncated"
        | some opt_sig =>
          if opt_sig = 0x10b then
            match parseOptHeader32 B (pe_offs + 26) with
            | none => Except.error "truncated"
            | some o => parseRest B pe_offs hdr (OptHeader.h32 o)
          else if opt_sig = 0x20b then
            match parseOptHeader64 B (pe_offs + 26) with
            | none => Except.error "truncated"
            | some o => parseRest B pe_offs hdr (OptHeader.h64 o)
          else Except.error "Unknown optional header type."
    else Except.error "Not a PE file: PE signature is missing."

/-- The facts `_PeFile.__init__` establishes about a successfully parsed
image, consumed by the store/round-trip theorems. -/
structure ParsedInv (B : List Nat) (p : PeFile) : Prop where
  stub_eq : p.dos_stub = B.take p.dos_stub.length
  stub_le : p.dos_stub.length + 4 ≤ B.length
  choffs_eq : p.checksum_offs = p.dos_stub.length + 88
  fa_ne : p.opt_header.FileAlignment ≠ 0
  vm_ok : check_vm_overlaps p = none
  sec_data : ∀ sec ∈ p.sections,
    (sec.hdr.PointerToRawData = 0 → sec.data = none) ∧
    (sec.hdr.PointerToRawData ≠ 0 →
      sec.data = some (pySlice B sec.hdr.PointerToRawData
        (sec.hdr.PointerToRawData + sec.hdr.SizeOfRawData)))
  trailer_eq : p.trailer = B.drop p.trailer_offset
  dds_eq : parseDataDirectories B (p.dos_stub.length + 26 + p.opt_header.size)
      p.data_directories.length = some p.data_directories

/-! ## Serializer (`store`) -/

def lenNoneMsg : String := "TypeError: object of type NoneType has no len()"

/-- The first `store` loop: reassign `PointerToRawData`/`SizeOfRawData` of
every file-backed section to the running offset; `len(sec.data)` raises
`TypeError` when a backed section has no data object. -/
def assignOffsets (fa : Nat) : List PeSection → Nat → Except String (List PeSection × Nat)
  | [], offs => Except.ok ([], offs)
  | sec :: rest, offs =>
    if sec.hdr.PointerToRawData = 0 then
      match assignOffsets fa rest offs with
      | Except.error e => Except.error e
      | Except.ok (rest', offs') => Except.ok (sec :: rest', offs')
    else
      match sec.data with
      | none => Except.error lenNoneMsg
      | some d =>
        let sz := pe_align d.length fa
        let sec' := { sec with hdr := { sec.hdr with PointerToRawData := offs, SizeOfRawData := sz } }
        match assignOffsets fa rest (offs + sz) with
        | Except.error e => Except.error e
        | Except.ok (rest', offs') => Except.ok (sec' :: rest', offs')

/-- The second `store` loop: every section's data followed by its alignment
padding.  It does not skip unbacked sections, so `len(sec.data)` raises
`TypeError` on any section whose data is absent. -/
def sectionPieces (fa : Nat) : List PeSection → Except String (List Nat)
  | [] => Except.ok []
  | sec :: rest =>
    match sec.data with
    | none => Except.error lenNoneMsg
    | some d =>
      let pad := pe_align d.length fa - d.length
      match sectionPieces fa rest with
      | Except.error e => Except.error e
      | Except.ok rest' => Except.ok (d ++ List.replicate pad 0 ++ rest')

def headerEnd (p : PeFile) : Nat :=
  p.dos_stub.length + 4 + 20 + 2 + p.opt_header.size +
  p.data_directories.length * 8 + p.sections.length * 40

/-- `store` up to (and including) the concatenation of the output fragments:
re-validation, offset reassignment, checksum-field zeroing, packing.  A zero
`FileAlignment` makes the first `_file_align` division raise
`ZeroDivisionError`. -/
def storeUnpatched (p : PeFile) : Except String (List Nat) :=
  match check_vm_overlaps p with
  | some e => Except.error e
  | none =>
    if p.opt_header.FileAlignment = 0 then
      Except.error "ZeroDivisionError: integer division or modulo by zero"
    else
      let header_end := headerEnd p
      let section_offset := pe_align header_end p.opt_header.FileAlignment
      let header_pad := section_offset - header_end
      match assignOffsets p.opt_header.FileAlignment p.sections section_offset with
      | Except.error e => Except.error e
      | Except.ok (sections', _) =>
        let opt' := p.opt_header.setCheckSum 0
        match sectionPieces p.opt_header.FileAlignment sections' with
        | Except.error e => Except.error e
        | Except.ok datapart =>
          Except.ok (p.dos_stub ++ [0x50, 0x45, 0, 0] ++ packFileHeader p.file_header ++
            le16 p.opt_header.sig ++ packOptHeader opt' ++
            (p.data_directories.map packDataDirectory).flatten ++
            (sections'.map (fun sec => packSectionHeader sec.hdr)).flatten ++
            List.replicate header_pad 0 ++ datapart ++ p.trailer)

/-- `store`: build the provisional buffer, compute the real checksum over it
(`struct.error` on an odd length), pack it (`struct.error` if it does not fit
32 bits) and patch it in at the recorded checksum offset. -/
def store (p : PeFile) : Except String (List Nat) :=
  match storeUnpatched p with
  | Except.error e => Except.error e
  | Except.ok out0 =>
    match pe_checksum out0 with
    | none => Except.error "struct.error: unpack requires an even buffer"
    | some new_checksum =>
      if new_checksum < 4294967296 then
        Except.ok (out0.take p.checksum_offs ++ le32 new_checksum ++
          out0.drop (p.checksum_offs + 4))
      else Except.error "struct.error: argument out of range"

/-- Parse a buffer and immediately serialize it back, with no mutations. -/
def roundTrip (B : List Nat) : Except String (List Nat) :=
  match parse_pe B with
  | Except.error e => Except.error e
  | Except.ok p => store p

/-! ## Concrete fixtures -/

def mkSecHdr (va vs ptr szraw : Nat) : SectionHeader :=
  { Name := [], VirtualSize := vs, VirtualAddress := va, SizeOfRawData := szraw,
    PointerToRawData := ptr, PointerToRelocations := 0, PointerToLinenumbers := 0,
    NumberOfRelocations := 0, NumberOfLinenumbers := 0, Characteristics := 0 }

def egOpt (sa fa : Nat) : OptHeader :=
  OptHeader.h32
    { MajorLinkerVersion := 0, MinorLinkerVersion := 0, SizeOfCode := 0,
      SizeOfInitializedData := 0, SizeOfUninitializedData := 0,
      AddressOfEntryPoint := 0, BaseOfCode := 0, BaseOfData := 0, ImageBase := 0,
      SectionAlignment := sa, FileAlignment := fa,
      MajorOperatingSystemVersion := 0, MinorOperatingSystemVersion := 0,
      MajorImageVersion := 0, MinorImageVersion := 0,
      MajorSubsystemVersion := 0, MinorSubsystemVersion := 0, Reserved1 := 0,
      SizeOfImage := 0, SizeOfHeaders := 0, CheckSum := 0, Subsystem := 0,
      DllCharacteristics := 0, SizeOfStackReserve := 0, SizeOfStackCommit := 0,
      SizeOfHeapReserve := 0, SizeOfHeapCommit := 0, LoaderFlags := 0,
      NumberOfRvaAndSizes := 0 }

def egFileHeader (n : Nat) : FileHeader :=
  { Machine := 0, NumberOfSections := n, TimeDateStamp := 0,
    PointerToSymbolTable := 0, NumberOfSymbols := 0, SizeOfOptionalHeader := 224,
    Characteristics := 0 }

/-- A two-section image whose directory 0 exactly covers the first section. -/
def egResizeFile : PeFile :=
  { dos_stub := []
    file_header := egFileHeader 2
    opt_header := egOpt 4096 512
    data_directories := [{ VirtualAddress := 4096, Size := 256 }]
    sections := [{ hdr := mkSecHdr 4096 256 512 512, data := some [1, 2] },
                 { hdr := mkSecHdr 8192 256 1024 512, data := some [3, 4] }]
    trailer_offset := 1536
    trailer := []
    checksum_offs := 88 }

/-- An image with five directories whose security entry claims to end past the
file end. -/
def egSigNotAtEnd : PeFile :=
  { dos_stub := []
    file_header := egFileHeader 1
    opt_header := egOpt 4096 512
    data_directories :=
      [⟨0, 0⟩, ⟨0, 0⟩, ⟨0, 0⟩, ⟨0, 0⟩, { VirtualAddress := 300, Size := 50 }]
    sections := [{ hdr := mkSecHdr 4096 256 512 512, data := some [1, 2] }]
    trailer_offset := 200
    trailer := List.replicate 100 7
    checksum_offs := 88 }

/-- As `egSigNotAtEnd`, but the security entry starts before the trailer while
still ending at the file end. -/
def egSigNotInTrailer : PeFile :=
  { egSigNotAtEnd with
    data_directories :=
      [⟨0, 0⟩, ⟨0, 0⟩, ⟨0, 0⟩, ⟨0, 0⟩, { VirtualAddress := 150, Size := 150 }] }

/-- As `egSigNotAtEnd`, but with a well-placed signature occupying the whole
trailer. -/
def egSigGood : PeFile :=
  { egSigNotAtEnd with
    data_directories :=
      [⟨0, 0⟩, ⟨0, 0⟩, ⟨0, 0⟩, ⟨0, 0⟩, { VirtualAddress := 200, Size := 100 }] }

/-- The state `egSigGood` reaches after one successful `remove_signature`. -/
def egSigRemoved : PeFile :=
  { egSigNotAtEnd with
    trailer := [],
    data_directories := [⟨0, 0⟩, ⟨0, 0⟩, ⟨0, 0⟩, ⟨0, 0⟩, ⟨0, 0⟩] }

/-- Section header bytes: 8 NUL name bytes, then VirtualSize, VirtualAddress,
SizeOfRawData, PointerToRawData, and zeroed legacy fields. -/
def secHdrBytes (vsize va szraw ptrraw : Nat) : List Nat :=
  List.replicate 8 0 ++ le32 vsize ++ le32 va ++ le32 szraw ++ le32 ptrraw ++
  List.replicate 16 0

/-- 32-bit optional header bytes (94 bytes) with the given section/file
alignments and every other field zero; a zero checksum field disables
parse-time verification. -/
def optHeaderBytes (sa fa : Nat) : List Nat :=
  List.replicate 30 0 ++ le32 sa ++ le32 fa ++ List.replicate 56 0

/-- File header bytes (20 bytes) for `n` sections. -/
def fileHeaderBytes (n : Nat) : List Nat :=
  [0, 0] ++ le16 n ++ List.replicate 12 0 ++ [224, 0] ++ [0, 0]

/-- A well-formed 266-byte PE image (32-bit, both alignments 1, checksum
field 0) with two sections; the second has no file backing
(`PointerToRawData = 0`, e.g. pure BSS). -/
def bssImageBytes : List Nat :=
  List.replicate 60 0 ++ [64, 0, 0, 0] ++
  [80, 69, 0, 0] ++ fileHeaderBytes 2 ++ [11, 1] ++ optHeaderBytes 1 1 ++
  secHdrBytes 16 4096 2 264 ++ secHdrBytes 16 8192 0 0 ++ [170, 187]

/-- A well-formed 226-byte PE image with a single, file-backed section. -/
def backedImageBytes : List Nat :=
  List.replicate 60 0 ++ [64, 0, 0, 0] ++
  [80, 69, 0, 0] ++ fileHeaderBytes 1 ++ [11, 1] ++ optHeaderBytes 1 1 ++
  secHdrBytes 16 4096 2 224 ++ [170, 187]

/-- The unbacked (BSS-like) section of `bssImageBytes`. -/
def bssSection : PeSection :=
  { hdr := { Name := [0, 0, 0, 0, 0, 0, 0, 0], VirtualSize := 16,
             VirtualAddress := 8192, SizeOfRawData := 0, PointerToRawData := 0,
             PointerToRelocations := 0, PointerToLinenumbers := 0,
             NumberOfRelocations := 0, NumberOfLinenumbers := 0,
             Characteristics := 0 },
    data := none }

/-- The image `parse_pe bssImageBytes` produces. -/
def bssImage : PeFile :=
  { dos_stub := List.replicate 60 0 ++ [64, 0, 0, 0]
    file_header := { Machine := 0, NumberOfSections := 2, TimeDateStamp := 0,
                     PointerToSymbolTable := 0, NumberOfSymbols := 0,
                     SizeOfOptionalHeader := 224, Characteristics := 0 }
    opt_header := egOpt 1 1
    data_directories := []
    sections := [{ hdr := { Name := [0, 0, 0, 0, 0, 0, 0, 0], VirtualSize := 16,
                            VirtualAddress := 4096, SizeOfRawData := 2,
                            PointerToRawData := 264, PointerToRelocations := 0,
                            PointerToLinenumbers := 0, NumberOfRelocations := 0,
                            NumberOfLinenumbers := 0, Characteristics := 0 },
                   data := some [170, 187] },
                 bssSection]
    trailer_offset := 266
    trailer := []
    checksum_offs := 152 }

/-- The image `parse_pe backedImageBytes` produces. -/
def backedImage : PeFile :=
  { dos_stub := List.replicate 60 0 ++ [64, 0, 0, 0]
    file_header := egFileHeader 1
    opt_header := egOpt 1 1
    data_directories := []
    sections := [{ hdr := { Name := [0, 0, 0, 0, 0, 0, 0, 0], VirtualSize := 16,
                            VirtualAddress := 4096, SizeOfRawData := 2,
                            PointerToRawData := 224, PointerToRelocations := 0,
                            PointerToLinenumbers := 0, NumberOfRelocations := 0,
                            NumberOfLinenumbers := 0, Characteristics := 0 },
                   data := some [170, 187] }]
    trailer_offset := 226
    trailer := []
    checksum_offs := 152 }

/-! ## Checksum lemmas -/

theorem limbSum_le (c : Nat) : limbSum c ≤ c := by
  induction c using Nat.strong_induction_on with
  | _ c ih =>
    rw [limbSum]
    by_cases h : c = 0
    · simp [h]
    · simp only [if_neg h]
      have hdiv : c / 65536 < c ∨ c / 65536 = 0 := by
        rcases Nat.eq_zero_or_pos (c / 65536) with h0 | hpos
        · exact Or.inr h0
        · exact Or.inl (Nat.div_lt_self (Nat.pos_of_ne_zero h) (by norm_num))
      rcases hdiv with hlt | h0
      · have := ih (c / 65536) hlt
        have hmod := Nat.div_add_mod c 65536
        omega
      · rw [h0, limbSum]
        have hmod := Nat.mod_le c 65536
        simp [hmod]

theorem limbSum_lt (c : Nat) (h : 65535 < c) : limbSum c < c := by
  rw [limbSum]
  have hc0 : c ≠ 0 := by omega
  simp only [if_neg hc0]
  have hq : 1 ≤ c / 65536 := (Nat.one_le_div_iff (by norm_num)).mpr (by omega)
  have hle := limbSum_le (c / 65536)
  have hmod := Nat.div_add_mod c 65536
  omega

theorem foldChecksum_le (r : Nat) : foldChecksum r ≤ 65535 := by
  induction r using Nat.strong_induction_on with
  | _ r ih =>
    rw [foldChecksum]
    by_cases h : 65535 < r
    · rw [if_pos h]; exact ih (limbSum r) (limbSum_lt r h)
    · rw [if_neg h]; omega

theorem wordSum_append_of_even :
    ∀ (l l2 : List Nat), l.length % 2 = 0 → wordSum (l ++ l2) = wordSum l + wordSum l2
  | [], l2, _ => by simp [wordSum]
  | [a], l2, h => by simp at h
  | a :: b :: rest, l2, h => by
      have h' : rest.length % 2 = 0 := by simp [List.length_cons] at h; omega
      have ih := wordSum_append_of_even rest l2 h'
      simp only [List.cons_append, wordSum, List.append_eq] at *
      omega

theorem blockSum_of_even :
    ∀ (l : List Nat) (r : Nat), l.length % 2 = 0 → blockSum l r = some (r + wordSum l) := by
  intro l r
  induction l, r using blockSum.induct with
  | case1 l r hlen ih =>
    intro h
    rw [blockSum, if_pos hlen]
    have hdrop : (l.drop 4096).length % 2 = 0 := by
      simp only [List.length_drop]; omega
    rw [ih hdrop]
    have hsplit : wordSum (l.take 4096) + wordSum (l.drop 4096) = wordSum l := by
      have := wordSum_append_of_even (l.take 4096) (l.drop 4096)
        (by simp [List.length_take]; omega)
      rw [List.take_append_drop] at this
      omega
    congr 1
    omega
  | case2 l r hlen heven =>
    intro h
    rw [blockSum, if_neg hlen, if_pos h]
  | case3 l r hlen hodd =>
    intro h
    exact absurd h hodd

theorem blockSum_of_odd :
    ∀ (l : List Nat) (r : Nat), l.length % 2 = 1 → blockSum l r = none := by
  intro l r
  induction l, r using blockSum.induct with
  | case1 l r hlen ih =>
    intro h
    rw [blockSum, if_pos hlen]
    exact ih (by simp only [List.length_drop]; omega)
  | case2 l r hlen heven =>
    intro h
    exact absurd heven (by omega)
  | case3 l r hlen hodd =>
    intro h
    rw [blockSum, if_neg hlen, if_neg hodd]

theorem pe_checksum_of_even (l : List Nat) (h : l.length % 2 = 0) :
    pe_checksum l = some (foldChecksum (wordSum l) + l.length) := by
  simp [pe_checksum, blockSum_of_even l 0 h]

theorem pe_checksum_of_odd (l : List Nat) (h : l.length % 2 = 1) :
    pe_checksum l = none := by
  simp [pe_checksum, blockSum_of_odd l 0 h]

theorem wordSum_replicate_zero : ∀ (n : Nat), wordSum (List.replicate n 0) = 0 := by
  intro n
  induction n using Nat.strong_induction_on with
  | _ n ih =>
    match n with
    | 0 => simp [wordSum]
    | 1 => simp [wordSum, List.replicate]
    | (m + 2) =>
      simp only [List.replicate, wordSum]
      rw [ih m (by omega)]

theorem foldChecksum_zero : foldChecksum 0 = 0 := by
  rw [foldChecksum]; simp

theorem pe_checksum_replicate_zero (k : Nat) :
    pe_checksum (List.replicate (2 * k) 0) = some (2 * k) := by
  rw [pe_checksum_of_even _ (by simp [List.length_replicate])]
  rw [wordSum_replicate_zero, foldChecksum_zero]
  simp


/-! ## Claim C10 -/

/-- C10: for every buffer of odd total length, `pe_checksum` raises an error
(the remainder `struct.unpack` fails; the trailing odd byte is neither
truncated nor included), so the checksum is total only on even-length
buffers. -/
theorem C10_checksum_odd_raises (B : List Nat) (h : B.length % 2 = 1) :
    pe_checksum B = none :=
  pe_checksum_of_odd B h

theorem C10_checksum_odd_raises_witness : pe_checksum [0] = none :=
  C10_checksum_odd_raises [0] (by decide)

/-! ## Claim C8 -/

/-- C8 (amended): for every even-length buffer, `pe_checksum` equals the
specification reference — sum of all little-endian 16-bit words, folded by
repeatedly summing 16-bit limbs until at most `0xFFFF`, plus the total
length — except that the final value is NOT truncated to 32 bits; the
truncating reference `refChecksum` agrees exactly when the value fits in
32 bits. -/
theorem C8_checksum_matches_reference (B : List Nat) (h : B.length % 2 = 0) :
    pe_checksum B = some (foldChecksum (wordSum B) + B.length) ∧
    (B.length + 65535 < 4294967296 → pe_checksum B = some (refChecksum B)) := by
  refine ⟨pe_checksum_of_even B h, fun hlt => ?_⟩
  rw [pe_checksum_of_even B h, refChecksum,
    Nat.mod_eq_of_lt (by have := foldChecksum_le (wordSum B); omega)]

theorem C8_checksum_matches_reference_witness :
    pe_checksum [2, 3] = some (foldChecksum (wordSum [2, 3]) + 2) ∧
    pe_checksum [2, 3] = some (refChecksum [2, 3]) := by
  have h := C8_checksum_matches_reference [2, 3] (by decide)
  exact ⟨h.1, h.2 (by decide)⟩

/-- C8 counterexample: on the even-length buffer of `2^32` zero bytes the code
returns `2^32` (Python ints do not wrap), while the truncating reference of
the claim returns `0`. -/
theorem C8_counterexample :
    (List.replicate 4294967296 (0 : Nat)).length % 2 = 0 ∧
    pe_checksum (List.replicate 4294967296 (0 : Nat)) = some 4294967296 ∧
    refChecksum (List.replicate 4294967296 (0 : Nat)) = 0 ∧
    pe_checksum (List.replicate 4294967296 (0 : Nat)) ≠
      some (refChecksum (List.replicate 4294967296 (0 : Nat))) := by
  have h1 : pe_checksum (List.replicate 4294967296 (0 : Nat)) = some 4294967296 := by
    have h := pe_checksum_replicate_zero 2147483648
    have h2 : (2 * 2147483648 : Nat) = 4294967296 := by norm_num
    rw [h2] at h
    exact h
  have hgen : ∀ n : Nat, refChecksum (List.replicate n 0) = n % 4294967296 := by
    intro n
    unfold refChecksum
    rw [wordSum_replicate_zero, foldChecksum_zero, List.length_replicate, Nat.zero_add]
  have h2 : refChecksum (List.replicate 4294967296 (0 : Nat)) = 0 := by
    rw [hgen 4294967296, Nat.mod_self]
  have h3 : (List.replicate 4294967296 (0 : Nat)).length % 2 = 0 := by
    rw [List.length_replicate]
  refine ⟨h3, h1, h2, ?_⟩
  rw [h1, h2]
  intro hcontra
  exact absurd (Option.some.inj hcontra) (by norm_num)

/-! ## Claim C5 -/

/-- C5 (code bug): `has_directory`/`find_directory` guard with
`len(dds) < idx` instead of `len(dds) <= idx`, so the out-of-range index
`idx = len(dds)` slips past the guard and the subscript raises `IndexError`
instead of reporting the directory absent; strictly larger indices do report
absence. -/
theorem C5_out_of_range_index_raises :
    egResizeFile.data_directories.length = 1 ∧
    has_directory egResizeFile 1 = Except.error "IndexError: list index out of range" ∧
    find_directory egResizeFile 1 = Except.error "IndexError: list index out of range" ∧
    has_directory egResizeFile 2 = Except.ok false ∧
    find_directory egResizeFile 2 = Except.ok none := by
  decide

/-! ## Claim C2 -/

/-- C2 (code bug): growing directory 0 (whose section has virtual size 0x100)
to 0x200 reaches the relocation path, but that path is broken: it assigns
`sec.VirtualAddress`/`sec.VirtualSize` on the `_PeSection` wrapper instead of
`sec.hdr`, and `_find_vm_hole` reads those attributes on the other sections —
which never have them — so the call raises `AttributeError`; neither the
section header nor the directory entry is ever updated. -/
theorem C2_grow_resize_raises :
    _get_directory_section egResizeFile 4096 (4096 + 256) = some 0 ∧
    (256 : Nat) < 512 ∧
    resize_directory egResizeFile 0 512 = (egResizeFile, Except.error attrErrVA) := by
  decide

/-! ## Claim C4 -/

/-- C4: when the directory at `idx` exactly matches section `sec_idx` and
`size` is at most that section's current virtual size, `resize_directory`
shrinks in place: the section's `VirtualAddress` and the directory's
`virtualAddress` stay unchanged while the section's virtual size and the
directory's size both become `size`. -/
theorem C4_shrink_in_place (p : PeFile) (idx size sec_idx : Nat)
    (dd : DataDirectory) (sec : PeSection)
    (hdd : p.data_directories[idx]? = some dd)
    (hfound : _get_directory_section p dd.VirtualAddress (dd.VirtualAddress + dd.Size) = some sec_idx)
    (hsec : p.sections[sec_idx]? = some sec)
    (hle : size ≤ sec.hdr.VirtualSize) :
    resize_directory p idx size =
      ({ p with
          sections := p.sections.set sec_idx
            { sec with hdr := { sec.hdr with VirtualSize := size } },
          data_directories := p.data_directories.set idx { dd with Size := size } },
       Except.ok ⟨sec.hdr.VirtualAddress, sec.hdr.VirtualAddress + size⟩) := by
  simp only [resize_directory, _resize_directory, hdd, hfound, hsec, if_pos hle]

theorem C4_shrink_in_place_witness :
    resize_directory egResizeFile 0 128 =
      ({ egResizeFile with
          sections := egResizeFile.sections.set 0
            { hdr := mkSecHdr 4096 128 512 512, data := some [1, 2] },
          data_directories := [{ VirtualAddress := 4096, Size := 128 }] },
       Except.ok ⟨4096, 4224⟩) := by
  have h := C4_shrink_in_place egResizeFile 0 128 0
    { VirtualAddress := 4096, Size := 256 }
    { hdr := mkSecHdr 4096 256 512 512, data := some [1, 2] }
    (by decide) (by decide) (by decide) (by decide)
  rw [h]
  decide

/-! ## Claim C6 -/

/-- C6: with a nonzero-size security entry present, `remove_signature` raises
`InvariantViolation("signature is not at the end of the file")` when the entry
does not end exactly at the file end, and (the end being right)
`InvariantViolation("signature is not contained in the pe trailer")` when it
starts before the trailer; in both cases the trailer and all directory entries
are left unchanged — the returned state is exactly `p`. -/
theorem C6_remove_signature_rejects (p : PeFile) (dd : DataDirectory)
    (hdd : p.data_directories[IMAGE_DIRECTORY_ENTRY_SECURITY]? = some dd)
    (hsz : dd.Size ≠ 0) :
    (dd.VirtualAddress + dd.Size ≠ p.trailer_offset + p.trailer.length →
      remove_signature p = (p, some "signature is not at the end of the file")) ∧
    (dd.VirtualAddress + dd.Size = p.trailer_offset + p.trailer.length →
      dd.VirtualAddress < p.trailer_offset →
      remove_signature p = (p, some "signature is not contained in the pe trailer")) := by
  have hlen : IMAGE_DIRECTORY_ENTRY_SECURITY < p.data_directories.length := by
    by_contra hle
    rw [List.getElem?_eq_none (by omega)] at hdd
    exact Option.noConfusion hdd
  constructor
  · intro hne
    simp only [remove_signature, hdd, if_neg hsz, if_pos hne,
      if_neg (show ¬ p.data_directories.length < IMAGE_DIRECTORY_ENTRY_SECURITY by omega)]
  · intro hend hcont
    simp only [remove_signature, hdd, if_neg hsz,
      if_neg (show ¬ dd.VirtualAddress + dd.Size ≠ p.trailer_offset + p.trailer.length from
        not_not_intro hend),
      if_pos hcont,
      if_neg (show ¬ p.data_directories.length < IMAGE_DIRECTORY_ENTRY_SECURITY by omega)]

theorem C6_remove_signature_rejects_witness :
    remove_signature egSigNotAtEnd =
      (egSigNotAtEnd, some "signature is not at the end of the file") ∧
    remove_signature egSigNotInTrailer =
      (egSigNotInTrailer, some "signature is not contained in the pe trailer") :=
  ⟨(C6_remove_signature_rejects egSigNotAtEnd { VirtualAddress := 300, Size := 50 }
      (by decide) (by decide)).1 (by decide),
   (C6_remove_signature_rejects egSigNotInTrailer { VirtualAddress := 150, Size := 150 }
      (by decide) (by decide)).2 (by decide) (by decide)⟩

/-! ## Claim C7 -/

/-- C7: once `remove_signature` has returned normally, a second call is a
no-op: it returns without error and leaves the state (trailer and all
directory entries) unchanged, because it sees either a missing security slot
again or the security entry zeroed by the first call. -/
theorem C7_remove_signature_idempotent (p p1 : PeFile)
    (h : remove_signature p = (p1, none)) :
    remove_signature p1 = (p1, none) := by
  unfold remove_signature at h
  split at h
  · rename_i h4
    rw [Prod.mk.injEq] at h
    obtain ⟨hp, -⟩ := h
    subst hp
    unfold remove_signature
    rw [if_pos h4]
  · rename_i h4
    split at h
    · rw [Prod.mk.injEq] at h
      exact Option.noConfusion h.2
    · rename_i dd hdd
      by_cases hsz : dd.Size = 0
      · rw [if_pos hsz, Prod.mk.injEq] at h
        obtain ⟨hp, -⟩ := h
        subst hp
        simp only [remove_signature, if_neg h4, hdd, if_pos hsz]
      · rw [if_neg hsz] at h
        by_cases hend : dd.VirtualAddress + dd.Size ≠ p.trailer_offset + p.trailer.length
        · rw [if_pos hend, Prod.mk.injEq] at h
          exact Option.noConfusion h.2
        · rw [if_neg hend] at h
          by_cases hcont : dd.VirtualAddress < p.trailer_offset
          · rw [if_pos hcont, Prod.mk.injEq] at h
            exact Option.noConfusion h.2
          · rw [if_neg hcont, Prod.mk.injEq] at h
            obtain ⟨hp, -⟩ := h
            have hlen : IMAGE_DIRECTORY_ENTRY_SECURITY < p.data_directories.length := by
              by_contra hle
              rw [List.getElem?_eq_none (by omega)] at hdd
              exact Option.noConfusion hdd
            subst hp
            simp only [remove_signature, List.length_set, if_neg h4,
              List.getElem?_set_eq_of_lt _ hlen]
            simp

theorem C7_remove_signature_idempotent_witness :
    remove_signature egSigGood = (egSigRemoved, none) ∧
    remove_signature egSigRemoved = (egSigRemoved, none) := by
  have h1 : remove_signature egSigGood = (egSigRemoved, none) := by decide
  exact ⟨h1, C7_remove_signature_idempotent _ _ h1⟩

/-! ## Claim C3: sort machinery

`pySortBy` is a stable sort; replacing one element of the input by another
with the same key replaces it in place in the sorted output.  This is proved
by decorating with indices (`enumIdx`), where the sort order is key-plus-index
and hence insensitive to the replacement. -/

theorem enumIdx_map_snd {α : Type} :
    ∀ (l : List α) (i : Nat), (enumIdx i l).map Prod.snd = l
  | [], _ => rfl
  | a :: t, i => by
      simp only [enumIdx, List.map]
      rw [enumIdx_map_snd t (i + 1)]

theorem mem_enumIdx {α : Type} :
    ∀ (l : List α) (i : Nat) (q : Nat × α), q ∈ enumIdx i l →
      ∃ k, q.1 = i + k ∧ l[k]? = some q.2
  | [], _, q, h => by simp [enumIdx] at h
  | a :: t, i, q, h => by
      simp only [enumIdx, List.mem_cons] at h
      rcases h with rfl | h
      · exact ⟨0, by simp⟩
      · obtain ⟨k, hk, hget⟩ := mem_enumIdx t (i + 1) q h
        exact ⟨k + 1, by omega, by simpa using hget⟩

theorem enumIdx_mem_intro {α : Type} :
    ∀ (l : List α) (i k : Nat) (x : α), l[k]? = some x → (i + k, x) ∈ enumIdx i l
  | [], i, k, x, h => by simp at h
  | a :: t, i, 0, x, h => by
      simp only [List.getElem?_cons_zero, Option.some.injEq] at h
      subst h
      simp [enumIdx]
  | a :: t, i, k + 1, x, h => by
      simp only [List.getElem?_cons_succ] at h
      have hmem := enumIdx_mem_intro t (i + 1) k x h
      simp only [enumIdx, List.mem_cons]
      right
      simpa [show i + 1 + k = i + (k + 1) from by omega] using hmem

theorem enumIdx_fst_ge {α : Type} (l : List α) (i : Nat) (q : Nat × α)
    (h : q ∈ enumIdx i l) : i ≤ q.1 := by
  obtain ⟨k, hk, -⟩ := mem_enumIdx l i q h
  omega

theorem enumIdx_set {α : Type} :
    ∀ (l : List α) (i k : Nat) (t : α),
      enumIdx i (l.set k t) =
        (enumIdx i l).map (fun q => if q.1 = i + k then (q.1, t) else q)
  | [], i, k, t => by simp [enumIdx]
  | a :: rest, i, 0, t => by
      simp only [List.set, enumIdx, List.map, if_pos (by omega : i = i + 0)]
      rw [List.map_congr_left (g := id), List.map_id]
      intro q hq
      have := enumIdx_fst_ge rest (i + 1) q hq
      simp only [if_neg (by omega : ¬ q.1 = i + 0), id]
  | a :: rest, i, k + 1, t => by
      simp only [List.set, enumIdx, List.map, if_neg (by omega : ¬ i = i + (k + 1))]
      rw [enumIdx_set rest (i + 1) k t]
      simp only [show i + 1 + k = i + (k + 1) from by omega]

theorem orderedInsert_map_rel {α : Type} (r : α → α → Prop) [DecidableRel r] (m : α → α) :
    ∀ (a : α) (l : List α),
      (∀ x ∈ a :: l, ∀ y ∈ a :: l, (r (m x) (m y) ↔ r x y)) →
      List.orderedInsert r (m a) (l.map m) = (List.orderedInsert r a l).map m
  | a, [], _ => by simp [List.orderedInsert]
  | a, b :: l, h => by
      have hsub : ∀ z : α, z ∈ a :: l → z ∈ a :: b :: l := by
        intro z hz
        rcases List.mem_cons.mp hz with rfl | hz
        · exact List.mem_cons_self z _
        · exact List.mem_cons_of_mem a (List.mem_cons_of_mem b hz)
      simp only [List.map, List.orderedInsert]
      by_cases hr : r a b
      · rw [if_pos ((h a (by simp) b (by simp)).mpr hr), if_pos hr]
        simp [List.map]
      · rw [if_neg (fun hc => hr ((h a (by simp) b (by simp)).mp hc)), if_neg hr]
        simp only [List.map, List.cons.injEq, true_and]
        exact orderedInsert_map_rel r m a l (fun x hx y hy => h x (hsub x hx) y (hsub y hy))

theorem insertionSort_map_rel {α : Type} (r : α → α → Prop) [DecidableRel r] (m : α → α) :
    ∀ (l : List α),
      (∀ x ∈ l, ∀ y ∈ l, (r (m x) (m y) ↔ r x y)) →
      List.insertionSort r (l.map m) = (List.insertionSort r l).map m
  | [], _ => rfl
  | a :: l, h => by
      have hsub : ∀ z : α, z ∈ a :: List.insertionSort r l → z ∈ a :: l := by
        intro z hz
        rcases List.mem_cons.mp hz with rfl | hz
        · exact List.mem_cons_self z _
        · exact List.mem_cons_of_mem a ((List.mem_insertionSort r).mp hz)
      simp only [List.map, List.insertionSort]
      rw [insertionSort_map_rel r m l
        (fun x hx y hy => h x (List.mem_cons_of_mem a hx) y (List.mem_cons_of_mem a hy))]
      exact orderedInsert_map_rel r m a (List.insertionSort r l)
        (fun x hx y hy => h x (hsub x hx) y (hsub y hy))

theorem chain'_imp_mem {α : Type} {R S : α → α → Prop} :
    ∀ (l : List α), List.Chain' R l → (∀ a ∈ l, ∀ b ∈ l, R a b → S a b) →
      List.Chain' S l
  | [], _, _ => List.chain'_nil
  | [a], _, _ => by simp
  | a :: b :: t, h, himp => by
      rw [List.chain'_cons] at h ⊢
      refine ⟨himp a (by simp) b (by simp) h.1, ?_⟩
      exact chain'_imp_mem (b :: t) h.2
        (fun x hx y hy hr => himp x (List.mem_cons_of_mem a hx) y (List.mem_cons_of_mem a hy) hr)

/-! ## Claim C3: `goCheck` characterization -/

theorem goCheck_nil (sa : Nat) (prev : Option PeSection) : goCheck sa prev [] = none := by
  cases prev <;> rfl

theorem goCheck_cons_none (sa : Nat) (sec : PeSection) (rest : List PeSection) :
    goCheck sa none (sec :: rest) =
      if sa = 0 then some "ZeroDivisionError: integer division or modulo by zero"
      else if sec.hdr.VirtualAddress % sa ≠ 0 then some "sections are misaligned in memory"
      else goCheck sa (some sec) rest := rfl

theorem goCheck_cons_some (sa : Nat) (pv sec : PeSection) (rest : List PeSection) :
    goCheck sa (some pv) (sec :: rest) =
      if sa = 0 then some "ZeroDivisionError: integer division or modulo by zero"
      else if sec.hdr.VirtualAddress % sa ≠ 0 then some "sections are misaligned in memory"
      else if sec.hdr.VirtualAddress < pv.hdr.VirtualAddress + pv.hdr.VirtualSize then
        some "sections overlap in memory"
      else goCheck sa (some sec) rest := rfl

theorem goCheck_none_intro :
    ∀ (sa : Nat) (prev : Option PeSection) (l : List PeSection),
      sa ≠ 0 → (∀ s ∈ l, s.hdr.VirtualAddress % sa = 0) →
      List.Chain' secR (prev.toList ++ l) →
      goCheck sa prev l = none
  | sa, prev, [], _, _, _ => goCheck_nil sa prev
  | sa, none, sec :: rest, hsa, halign, hchain => by
      rw [goCheck_cons_none, if_neg hsa, if_neg (not_not_intro (halign sec (by simp)))]
      exact goCheck_none_intro sa (some sec) rest hsa
        (fun s hs => halign s (List.mem_cons_of_mem sec hs))
        (by simpa using hchain)
  | sa, some pv, sec :: rest, hsa, halign, hchain => by
      rw [goCheck_cons_some, if_neg hsa, if_neg (not_not_intro (halign sec (by simp)))]
      have hch : secR pv sec ∧ List.Chain' secR (sec :: rest) := by
        simpa [List.chain'_cons] using hchain
      have hR := hch.1
      unfold secR at hR
      rw [if_neg (by omega)]
      exact goCheck_none_intro sa (some sec) rest hsa
        (fun s hs => halign s (List.mem_cons_of_mem sec hs))
        (by simpa using hch.2)

theorem goCheck_none_elim :
    ∀ (sa : Nat) (prev : Option PeSection) (l : List PeSection),
      goCheck sa prev l = none → l = [] ∨
        (sa ≠ 0 ∧ (∀ s ∈ l, s.hdr.VirtualAddress % sa = 0) ∧
          List.Chain' secR (prev.toList ++ l))
  | sa, prev, [], _ => Or.inl rfl
  | sa, none, sec :: rest, h => by
      rw [goCheck_cons_none] at h
      by_cases hsa : sa = 0
      · rw [if_pos hsa] at h
        exact Option.noConfusion h
      · rw [if_neg hsa] at h
        by_cases halign : sec.hdr.VirtualAddress % sa = 0
        · rw [if_neg (not_not_intro halign)] at h
          refine Or.inr ⟨hsa, ?_, ?_⟩
          · intro s hs
            rcases List.mem_cons.mp hs with rfl | hs
            · exact halign
            · rcases goCheck_none_elim sa (some sec) rest h with rfl | ⟨-, hal, -⟩
              · simp at hs
              · exact hal s hs
          · rcases goCheck_none_elim sa (some sec) rest h with rfl | ⟨-, -, hch⟩
            · simp
            · simpa using hch
        · rw [if_pos halign] at h
          exact Option.noConfusion h
  | sa, some pv, sec :: rest, h => by
      rw [goCheck_cons_some] at h
      by_cases hsa : sa = 0
      · rw [if_pos hsa] at h
        exact Option.noConfusion h
      · rw [if_neg hsa] at h
        by_cases halign : sec.hdr.VirtualAddress % sa = 0
        · rw [if_neg (not_not_intro halign)] at h
          by_cases hov : sec.hdr.VirtualAddress < pv.hdr.VirtualAddress + pv.hdr.VirtualSize
          · rw [if_pos hov] at h
            exact Option.noConfusion h
          · rw [if_neg hov] at h
            have hR : secR pv sec := by unfold secR; omega
            refine Or.inr ⟨hsa, ?_, ?_⟩
            · intro s hs
              rcases List.mem_cons.mp hs with rfl | hs
              · exact halign
              · rcases goCheck_none_elim sa (some sec) rest h with rfl | ⟨-, hal, -⟩
                · simp at hs
                · exact hal s hs
            · rcases goCheck_none_elim sa (some sec) rest h with rfl | ⟨-, -, hch⟩
              · simpa [List.chain'_cons] using hR
              · simp only [Option.toList, List.cons_append, List.nil_append,
                  List.chain'_cons] at hch ⊢
                exact ⟨hR, by simpa using hch⟩
        · rw [if_pos halign] at h
          exact Option.noConfusion h

/-! ## Claim C3: invariant preservation -/

/-- Replacing section `i` by one with the same `VirtualAddress` and an equal
or smaller virtual end keeps `_check_vm_overlaps` passing. -/
theorem check_vm_overlaps_set (p p' : PeFile) (i : Nat) (s t : PeSection)
    (hs : p.sections[i]? = some s)
    (hsecs : p'.sections = p.sections.set i t)
    (hsa : p'.opt_header.SectionAlignment = p.opt_header.SectionAlignment)
    (hva : t.hdr.VirtualAddress = s.hdr.VirtualAddress)
    (hend : t.hdr.VirtualAddress + t.hdr.VirtualSize ≤
      s.hdr.VirtualAddress + s.hdr.VirtualSize)
    (h : check_vm_overlaps p = none) : check_vm_overlaps p' = none := by
  unfold check_vm_overlaps pySortBy at h ⊢
  rw [hsecs, hsa, enumIdx_set p.sections 0 i t]
  have hmem_i : ∀ q : Nat × PeSection, q ∈ enumIdx 0 p.sections → q.1 = 0 + i → q.2 = s := by
    intro q hq hq1
    obtain ⟨k, hk, hget⟩ := mem_enumIdx p.sections 0 q hq
    have hki : k = i := by omega
    subst hki
    rw [hs] at hget
    exact (Option.some.inj hget).symm
  have hiff : ∀ x ∈ enumIdx 0 p.sections, ∀ y ∈ enumIdx 0 p.sections,
      (rLexKey (fun sec => sec.hdr.VirtualAddress)
          ((fun q => if q.1 = 0 + i then (q.1, t) else q) x)
          ((fun q => if q.1 = 0 + i then (q.1, t) else q) y) ↔
        rLexKey (fun sec => sec.hdr.VirtualAddress) x y) := by
    intro x hx y hy
    by_cases h1 : x.1 = 0 + i <;> by_cases h2 : y.1 = 0 + i
    · have hx2 := hmem_i x hx h1
      have hy2 := hmem_i y hy h2
      simp only [if_pos h1, if_pos h2, rLexKey, hva, hx2, hy2]
    · have hx2 := hmem_i x hx h1
      simp only [if_pos h1, if_neg h2, rLexKey, hva, hx2]
    · have hy2 := hmem_i y hy h2
      simp only [if_neg h1, if_pos h2, rLexKey, hva, hy2]
    · simp only [if_neg h1, if_neg h2]
  rw [insertionSort_map_rel _ _ (enumIdx 0 p.sections) hiff]
  rcases goCheck_none_elim _ none _ h with hnil | ⟨hsa0, halign, hchain⟩
  · cases hSnil : List.insertionSort (rLexKey fun sec => sec.hdr.VirtualAddress)
        (enumIdx 0 p.sections) with
    | nil => rfl
    | cons q tl =>
      rw [hSnil] at hnil
      simp at hnil
  · apply goCheck_none_intro _ _ _ hsa0
    · intro u hu
      rw [List.map_map] at hu
      obtain ⟨q, hq, rfl⟩ := List.mem_map.mp hu
      have hqE := (List.mem_insertionSort (rLexKey (fun sec : PeSection => sec.hdr.VirtualAddress))).mp hq
      by_cases h1 : q.1 = 0 + i
      · have hq2 : q.2 = s := hmem_i q hqE h1
        have hsmem : s ∈ (List.insertionSort (rLexKey fun sec => sec.hdr.VirtualAddress)
            (enumIdx 0 p.sections)).map Prod.snd := by
          refine List.mem_map.mpr ⟨q, hq, ?_⟩
          rw [hq2]
        have hal := halign s hsmem
        simp only [Function.comp_apply, if_pos h1]
        rw [hva]
        exact hal
      · have humem : q.2 ∈ (List.insertionSort (rLexKey fun sec => sec.hdr.VirtualAddress)
            (enumIdx 0 p.sections)).map Prod.snd := List.mem_map_of_mem Prod.snd hq
        simp only [Function.comp_apply, if_neg h1]
        exact halign q.2 humem
    · simp only [Option.toList, List.nil_append] at hchain ⊢
      rw [List.chain'_map] at hchain
      rw [List.map_map, List.chain'_map]
      refine chain'_imp_mem _ hchain ?_
      intro a ha b hb hr
      have haE := (List.mem_insertionSort (rLexKey (fun sec : PeSection => sec.hdr.VirtualAddress))).mp ha
      have hbE := (List.mem_insertionSort (rLexKey (fun sec : PeSection => sec.hdr.VirtualAddress))).mp hb
      simp only [Function.comp_apply] at hr ⊢
      unfold secR at hr ⊢
      by_cases h1 : a.1 = 0 + i <;> by_cases h2 : b.1 = 0 + i
      · have ha2 := hmem_i a haE h1
        have hb2 := hmem_i b hbE h2
        rw [ha2, hb2] at hr
        simp only [if_pos h1, if_pos h2]
        omega
      · have ha2 := hmem_i a haE h1
        rw [ha2] at hr
        simp only [if_pos h1, if_neg h2]
        omega
      · have hb2 := hmem_i b hbE h2
        rw [hb2] at hr
        simp only [if_neg h1, if_pos h2]
        omega
      · simp only [if_neg h1, if_neg h2]
        exact hr

/-- A successful `_resize_directory` only ever replaces one section by one
with the same header `VirtualAddress` and an equal-or-smaller virtual end (the
shrink branch shrinks `VirtualSize` in place; the relocation branch, when it
returns at all, touches only the stray wrapper attributes), and never changes
the optional header. -/
theorem _resize_directory_ok (p q : PeFile) (idx size : Nat) (res : Nat × PySlice)
    (h : _resize_directory p idx size = (q, Except.ok res)) :
    q.opt_header = p.opt_header ∧
    ∃ i s t, p.sections[i]? = some s ∧ q.sections = p.sections.set i t ∧
      t.hdr.VirtualAddress = s.hdr.VirtualAddress ∧
      t.hdr.VirtualAddress + t.hdr.VirtualSize ≤
        s.hdr.VirtualAddress + s.hdr.VirtualSize := by
  unfold _resize_directory at h
  split at h
  · rw [Prod.mk.injEq] at h
    exact Except.noConfusion h.2
  · rename_i dd hdd
    split at h
    · rw [Prod.mk.injEq] at h
      exact Except.noConfusion h.2
    · rename_i sec_idx hfound
      split at h
      · rw [Prod.mk.injEq] at h
        exact Except.noConfusion h.2
      · rename_i sec hsec
        by_cases hle : size ≤ sec.hdr.VirtualSize
        · rw [if_pos hle, Prod.mk.injEq] at h
          obtain ⟨hp, -⟩ := h
          subst hp
          refine ⟨rfl, sec_idx, sec, _, hsec, rfl, rfl, ?_⟩
          show sec.hdr.VirtualAddress + size ≤
            sec.hdr.VirtualAddress + sec.hdr.VirtualSize
          omega
        · rw [if_neg hle] at h
          simp only [] at h
          split at h
          · rw [Prod.mk.injEq] at h
            exact Except.noConfusion h.2
          · rename_i sl2 hhole
            rw [Prod.mk.injEq] at h
            obtain ⟨hp, -⟩ := h
            subst hp
            exact ⟨rfl, sec_idx, sec, _, hsec, rfl, rfl, Nat.le_refl _⟩

theorem resize_directory_ok (p q : PeFile) (idx size : Nat) (sl : PySlice)
    (h : resize_directory p idx size = (q, Except.ok sl)) :
    q.opt_header = p.opt_header ∧
    ∃ i s t, p.sections[i]? = some s ∧ q.sections = p.sections.set i t ∧
      t.hdr.VirtualAddress = s.hdr.VirtualAddress ∧
      t.hdr.VirtualAddress + t.hdr.VirtualSize ≤
        s.hdr.VirtualAddress + s.hdr.VirtualSize := by
  unfold resize_directory at h
  split at h
  · rw [Prod.mk.injEq] at h
    exact Except.noConfusion h.2
  · rename_i q2 si sl2 hres
    rw [Prod.mk.injEq] at h
    obtain ⟨hq, -⟩ := h
    subst hq
    exact _resize_directory_ok p q2 idx size (si, sl2) hres

/-- C3: for every image satisfying the virtual-address invariant and every
finite sequence of successful `resize_directory` calls, the invariant still
holds afterwards: every section `VirtualAddress` is `SectionAlignment`-aligned
and no two virtual ranges overlap, i.e. a subsequent `store` does not fail its
re-validation (`_check_vm_overlaps`) step. -/
theorem C3_resize_preserves_vm_invariant (reqs : List (Nat × Nat)) :
    ∀ (p p' : PeFile), check_vm_overlaps p = none →
      applyResizes p reqs = some p' → check_vm_overlaps p' = none := by
  induction reqs with
  | nil =>
    intro p p' hinv happ
    simp only [applyResizes] at happ
    rw [← Option.some.inj happ]
    exact hinv
  | cons req rest ih =>
    intro p p' hinv happ
    obtain ⟨idx, size⟩ := req
    simp only [applyResizes] at happ
    split at happ
    · rename_i q res hq
      obtain ⟨hopt, i, s, t, hs, hsecs, hva, hend⟩ :=
        resize_directory_ok p q idx size res hq
      refine ih q p' ?_ happ
      exact check_vm_overlaps_set p q i s t hs hsecs (by rw [hopt]) hva hend hinv
    · exact Option.noConfusion happ

theorem C3_resize_preserves_vm_invariant_witness :
    check_vm_overlaps egResizeFile = none ∧
    applyResizes egResizeFile [(0, 128)] =
      some ({ egResizeFile with
        sections := egResizeFile.sections.set 0
          { hdr := mkSecHdr 4096 128 512 512, data := some [1, 2] },
        data_directories := [{ VirtualAddress := 4096, Size := 128 }] }) ∧
    check_vm_overlaps ({ egResizeFile with
        sections := egResizeFile.sections.set 0
          { hdr := mkSecHdr 4096 128 512 512, data := some [1, 2] },
        data_directories := [{ VirtualAddress := 4096, Size := 128 }] }) = none := by
  refine ⟨by decide, by decide, ?_⟩
  exact C3_resize_preserves_vm_invariant [(0, 128)] egResizeFile _ (by decide) (by decide)

/-! ## Parse inversion -/

theorem pySlice_length (l : List Nat) (a b : Nat) :
    (pySlice l a b).length = min b l.length - a := by
  simp [pySlice, List.length_drop, List.length_take]

theorem make_pe_section_inv (fa : Nat) (B : List Nat) (hdr : SectionHeader)
    (sec : PeSection) (h : make_pe_section fa B hdr = Except.ok sec) :
    sec.hdr = hdr ∧
    (hdr.PointerToRawData = 0 → sec.data = none) ∧
    (hdr.PointerToRawData ≠ 0 →
      sec.data = some (pySlice B hdr.PointerToRawData
        (hdr.PointerToRawData + hdr.SizeOfRawData))) := by
  unfold make_pe_section at h
  by_cases h1 : hdr.PointerToRawData % fa ≠ 0
  · rw [if_pos h1] at h
    exact Except.noConfusion h
  · rw [if_neg h1] at h
    by_cases h2 : hdr.SizeOfRawData % fa ≠ 0
    · rw [if_pos h2] at h
      exact Except.noConfusion h
    · rw [if_neg h2] at h
      by_cases h3 : hdr.PointerToRawData = 0
      · rw [if_pos h3] at h
        have := Except.ok.inj h
        subst this
        exact ⟨rfl, fun _ => rfl, fun hc => absurd h3 hc⟩
      · rw [if_neg h3] at h
        simp only [] at h
        have := Except.ok.inj h
        subst this
        exact ⟨rfl, fun hc => absurd hc h3, fun _ => rfl⟩

theorem parseSections_inv :
    ∀ (n : Nat) (B : List Nat) (fa pos : Nat) (secs : List PeSection),
      parseSections B fa pos n = Except.ok secs →
      ∀ sec ∈ secs,
        (sec.hdr.PointerToRawData = 0 → sec.data = none) ∧
        (sec.hdr.PointerToRawData ≠ 0 →
          sec.data = some (pySlice B sec.hdr.PointerToRawData
            (sec.hdr.PointerToRawData + sec.hdr.SizeOfRawData)))
  | 0, B, fa, pos, secs, h => by
      have := Except.ok.inj h
      subst this
      intro sec hsec
      simp at hsec
  | n + 1, B, fa, pos, secs, h => by
      unfold parseSections at h
      split at h
      · exact Except.noConfusion h
      · rename_i hdr0 hhdr
        split at h
        · exact Except.noConfusion h
        · rename_i sec0 hmk
          split at h
          · exact Except.noConfusion h
          · rename_i rest hrest
            have := Except.ok.inj h
            subst this
            intro sec hsec
            rcases List.mem_cons.mp hsec with rfl | hsec
            · obtain ⟨hhdreq, h0, hne⟩ := make_pe_section_inv fa B hdr0 sec hmk
              rw [← hhdreq] at h0 hne
              exact ⟨h0, hne⟩
            · exact parseSections_inv n B fa (pos + 40) rest hrest sec hsec

theorem parseDataDirectories_length :
    ∀ (n : Nat) (B : List Nat) (pos : Nat) (l : List DataDirectory),
      parseDataDirectories B pos n = some l → l.length = n
  | 0, B, pos, l, h => by
      simp only [parseDataDirectories] at h
      rw [← Option.some.inj h]
      rfl
  | n + 1, B, pos, l, h => by
      unfold parseDataDirectories at h
      split at h
      · exact Option.noConfusion h
      · rename_i va hva
        split at h
        · exact Option.noConfusion h
        · rename_i sz hsz
          split at h
          · exact Option.noConfusion h
          · rename_i rest hrest
            rw [← Option.some.inj h]
            simp only [List.length_cons]
            rw [parseDataDirectories_length n B (pos + 8) rest hrest]

theorem parseRest_inv (B : List Nat) (pe_offs : Nat) (hdr : FileHeader)
    (opt : OptHeader) (p : PeFile)
    (hlen : pe_offs + 4 ≤ B.length)
    (h : parseRest B pe_offs hdr opt = Except.ok p) : ParsedInv B p := by
  unfold parseRest at h
  simp only [] at h
  split at h
  · exact Except.noConfusion h
  · by_cases hfa : opt.FileAlignment = 0
    · rw [if_pos hfa] at h
      exact Except.noConfusion h
    · rw [if_neg hfa] at h
      split at h
      · exact Except.noConfusion h
      · rename_i dds hdds
        split at h
        · exact Except.noConfusion h
        · rename_i sections hsecs
          split at h
          · exact Except.noConfusion h
          · rename_i last_sec hlast
            split at h
            · rename_i hholes
              split at h
              · exact Except.noConfusion h
              · rename_i hvm
                have hp := Except.ok.inj h
                subst hp
                have hstublen : (B.take pe_offs).length = pe_offs := by
                  rw [List.length_take]
                  omega
                refine ⟨?_, ?_, ?_, hfa, hvm, ?_, ?_, ?_⟩
                · show B.take pe_offs = B.take (B.take pe_offs).length
                  rw [hstublen]
                · show (B.take pe_offs).length + 4 ≤ B.length
                  rw [hstublen]
                  exact hlen
                · show pe_offs + 4 + 20 + 4 * 16 = (B.take pe_offs).length + 88
                  rw [hstublen]
                · exact fun sec hsec =>
                    parseSections_inv hdr.NumberOfSections B opt.FileAlignment
                      (pe_offs + 26 + opt.size + 8 * opt.NumberOfRvaAndSizes)
                      sections hsecs sec hsec
                · rfl
                · show parseDataDirectories B ((B.take pe_offs).length + 26 + opt.size)
                      dds.length = some dds
                  rw [hstublen,
                    parseDataDirectories_length opt.NumberOfRvaAndSizes B _ dds hdds]
                  exact hdds
            · exact Except.noConfusion h

theorem parse_pe_inv (B : List Nat) (p : PeFile) (h : parse_pe B = Except.ok p) :
    ParsedInv B p := by
  unfold parse_pe at h
  split at h
  · exact Except.noConfusion h
  · rename_i pe_offs hoffs
    split at h
    · rename_i hsig
      have hlen : pe_offs + 4 ≤ B.length := by
        have h4 : (pySlice B pe_offs (pe_offs + 4)).length = 4 := by rw [hsig]; rfl
        rw [pySlice_length] at h4
        omega
      split at h
      · exact Except.noConfusion h
      · rename_i fh hfh
        split at h
        · exact Except.noConfusion h
        · rename_i opt_sig hsig2
          by_cases h10 : opt_sig = 0x10b
          · rw [if_pos h10] at h
            split at h
            · exact Except.noConfusion h
            · rename_i o ho
              exact parseRest_inv B pe_offs fh (OptHeader.h32 o) p hlen h
          · rw [if_neg h10] at h
            by_cases h20 : opt_sig = 0x20b
            · rw [if_pos h20] at h
              split at h
              · exact Except.noConfusion h
              · rename_i o ho
                exact parseRest_inv B pe_offs fh (OptHeader.h64 o) p hlen h
            · rw [if_neg h20] at h
              exact Except.noConfusion h
    · exact Except.noConfusion h

/-! ## Claim C9 -/

theorem assignOffsets_data :
    ∀ (fa : Nat) (secs : List PeSection) (offs : Nat) (secs' : List PeSection) (off' : Nat),
      assignOffsets fa secs offs = Except.ok (secs', off') →
      secs'.map (fun s => s.data) = secs.map (fun s => s.data)
  | fa, [], offs, secs', off', h => by
      simp only [assignOffsets] at h
      have heq := Except.ok.inj h
      injection heq with h1 h2
      subst h1
      rfl
  | fa, sec :: rest, offs, secs', off', h => by
      unfold assignOffsets at h
      by_cases hp : sec.hdr.PointerToRawData = 0
      · rw [if_pos hp] at h
        split at h
        · exact Except.noConfusion h
        · rename_i rest' offs' hrec
          have heq := Except.ok.inj h
          injection heq with h1 h2
          subst h1
          simp only [List.map]
          rw [assignOffsets_data fa rest offs rest' offs' hrec]
      · rw [if_neg hp] at h
        split at h
        · exact Except.noConfusion h
        · rename_i d hd
          simp only [] at h
          split at h
          · exact Except.noConfusion h
          · rename_i rest' offs' hrec
            have heq := Except.ok.inj h
            injection heq with h1 h2
            subst h1
            simp only [List.map]
            rw [assignOffsets_data fa rest _ rest' offs' hrec, hd]

theorem sectionPieces_error :
    ∀ (fa : Nat) (secs : List PeSection), (∃ sec ∈ secs, sec.data = none) →
      sectionPieces fa secs = Except.error lenNoneMsg
  | fa, [], h => by
      obtain ⟨sec, hsec, -⟩ := h
      simp at hsec
  | fa, sec :: rest, h => by
      unfold sectionPieces
      obtain ⟨w, hw, hwdata⟩ := h
      rcases List.mem_cons.mp hw with rfl | hw
      · rw [hwdata]
      · cases hdata : sec.data with
        | none => rfl
        | some d =>
          simp only []
          rw [sectionPieces_error fa rest ⟨w, hw, hwdata⟩]

theorem storeUnpatched_error_of_data_none (p : PeFile) (sec : PeSection)
    (hsec : sec ∈ p.sections) (hdata : sec.data = none) :
    ∃ e, storeUnpatched p = Except.error e := by
  unfold storeUnpatched
  cases hvm : check_vm_overlaps p with
  | some e => exact ⟨e, rfl⟩
  | none =>
    by_cases hfa : p.opt_header.FileAlignment = 0
    · rw [if_pos hfa]
      exact ⟨_, rfl⟩
    · rw [if_neg hfa]
      simp only []
      cases hassign : assignOffsets p.opt_header.FileAlignment p.sections
          (pe_align (headerEnd p) p.opt_header.FileAlignment) with
      | error e => exact ⟨e, rfl⟩
      | ok pr =>
        obtain ⟨sections', off'⟩ := pr
        have hdmap := assignOffsets_data _ _ _ _ _ hassign
        have hnone : ∃ sec' ∈ sections', sec'.data = none := by
          have hmem : (none : Option (List Nat)) ∈ p.sections.map (fun s => s.data) := by
            rw [List.mem_map]
            exact ⟨sec, hsec, hdata⟩
          rw [← hdmap, List.mem_map] at hmem
          obtain ⟨sec', hsec', hval⟩ := hmem
          exact ⟨sec', hsec', hval⟩
        exact ⟨lenNoneMsg, by simp only [sectionPieces_error _ _ hnone]⟩

/-- C9: parsing an image that contains a section without file backing
(`PointerToRawData = 0`, so its parsed data is absent) and then calling
`store` always fails with an exception instead of producing an output buffer:
the serializer appends and measures every section's data, including absent
ones. -/
theorem C9_store_fails_on_unbacked_section (B : List Nat) (p : PeFile) (sec : PeSection)
    (hparse : parse_pe B = Except.ok p)
    (hsec : sec ∈ p.sections)
    (hptr : sec.hdr.PointerToRawData = 0) :
    ∃ e, store p = Except.error e := by
  have inv := parse_pe_inv B p hparse
  have hdata : sec.data = none := (inv.sec_data sec hsec).1 hptr
  obtain ⟨e, he⟩ := storeUnpatched_error_of_data_none p sec hsec hdata
  refine ⟨e, ?_⟩
  unfold store
  rw [he]

set_option maxRecDepth 100000 in
theorem C9_store_fails_on_unbacked_section_witness :
    ∃ e, store bssImage = Except.error e :=
  C9_store_fails_on_unbacked_section bssImageBytes bssImage bssSection
    (by decide) (by decide) (by decide)

/-! ## Claim C1 counterexample -/

set_option maxRecDepth 100000 in
/-- C1 counterexample: `bssImageBytes` is well-formed (it parses), but parsing
it and immediately calling `store` raises a `TypeError` instead of producing a
buffer, because its second section has no file backing; so the unqualified
round-trip claim fails. -/
theorem C1_counterexample :
    parse_pe bssImageBytes = Except.ok bssImage ∧
    roundTrip bssImageBytes =
      Except.error "TypeError: object of type NoneType has no len()" := by
  constructor
  · decide
  · decide

/-! ## Round-trip support: slice arithmetic -/

theorem pySlice_drop_shift (l : List Nat) (n a b : Nat) (h : n ≤ a) :
    pySlice l a b = pySlice (l.drop n) (a - n) (b - n) := by
  unfold pySlice
  rw [← List.drop_take, List.drop_drop]
  congr 1
  omega

theorem pySlice_append_ge (x y : List Nat) (a b : Nat) (h : x.length ≤ a) :
    pySlice (x ++ y) a b = pySlice y (a - x.length) (b - x.length) := by
  rw [pySlice_drop_shift (x ++ y) x.length a b h, List.drop_left]

theorem pySlice_append_lt (x y : List Nat) (a b : Nat) (h : b ≤ x.length) :
    pySlice (x ++ y) a b = pySlice x a b := by
  unfold pySlice
  rw [List.take_append_eq_append_take, Nat.sub_eq_zero_of_le h, List.take_zero,
    List.append_nil]

theorem pySlice_zero_take (l : List Nat) (b : Nat) : pySlice l 0 b = l.take b := by
  unfold pySlice
  rw [List.drop_zero]

theorem pySlice_concat (B : List Nat) (a m c : Nat) (ham : a ≤ m) (hmc : m ≤ c)
    (hmB : m ≤ B.length) :
    pySlice B a m ++ pySlice B m c = pySlice B a c := by
  unfold pySlice
  have h1 : (B.take c).take m = B.take m := by
    rw [List.take_take, Nat.min_eq_left hmc]
  have h2 : B.take c = B.take m ++ (B.take c).drop m := by
    conv_lhs => rw [← List.take_append_drop m (B.take c)]
    rw [h1]
  conv_rhs => rw [h2]
  rw [List.drop_append_eq_append_drop, List.length_take, Nat.min_eq_left hmB,
    Nat.sub_eq_zero_of_le ham, List.drop_zero]

theorem pySlice_subset (l : List Nat) (a b : Nat) (x : Nat) (hx : x ∈ pySlice l a b) :
    x ∈ l := by
  unfold pySlice at hx
  exact List.take_subset _ _ (List.drop_subset _ _ hx)

theorem le_pe_align (x fa : Nat) (h : fa ≠ 0) : x ≤ pe_align x fa := by
  unfold pe_align
  have hd := Nat.div_add_mod (x + fa - 1) fa
  have hm : (x + fa - 1) % fa < fa := Nat.mod_lt _ (Nat.pos_of_ne_zero h)
  rw [Nat.mul_comm]
  generalize (x + fa - 1) % fa = r at hd hm
  generalize fa * ((x + fa - 1) / fa) = P at hd ⊢
  omega

/-! ## Round-trip support: packed sizes -/

theorem le16_length (n : Nat) : (le16 n).length = 2 := rfl

theorem le32_length (n : Nat) : (le32 n).length = 4 := rfl

theorem packFileHeader_length (h : FileHeader) : (packFileHeader h).length = 20 := by
  simp [packFileHeader, le16, le32]

theorem packOptHeader32_length (o : OptHeader32) : (packOptHeader32 o).length = 94 := by
  simp [packOptHeader32, le8, le16, le32]

theorem packOptHeader64_length (o : OptHeader64) : (packOptHeader64 o).length = 110 := by
  simp [packOptHeader64, le8, le16, le32, le64]

theorem packOptHeader_length (o : OptHeader) : (packOptHeader o).length = o.size := by
  cases o with
  | h32 o => exact packOptHeader32_length o
  | h64 o => exact packOptHeader64_length o

theorem packDataDirectory_length (dd : DataDirectory) : (packDataDirectory dd).length = 8 :=
  rfl

theorem packSectionHeader_length (h : SectionHeader) :
    (packSectionHeader h).length = 40 := by
  simp [packSectionHeader, le16, le32]
  omega

theorem packDDs_length : ∀ l : List DataDirectory,
    ((l.map packDataDirectory).flatten).length = 8 * l.length
  | [] => rfl
  | dd :: rest => by
      simp only [List.map_cons, List.flatten_cons, List.length_append,
        packDataDirectory_length dd, packDDs_length rest, List.length_cons]
      ring

theorem packSecHdrs_length : ∀ l : List PeSection,
    ((l.map (fun sec => packSectionHeader sec.hdr)).flatten).length = 40 * l.length
  | [] => rfl
  | s :: rest => by
      simp only [List.map_cons, List.flatten_cons, List.length_append,
        packSectionHeader_length, packSecHdrs_length rest, List.length_cons]
      ring

theorem setCheckSum_size (o : OptHeader) (v : Nat) : (o.setCheckSum v).size = o.size := by
  cases o <;> rfl

theorem optHeader_size_ge (o : OptHeader) : 94 ≤ o.size := by
  cases o <;> simp [OptHeader.size]

theorem take4_le32 (v : Nat) (rest : List Nat) : (le32 v ++ rest).take 4 = le32 v := rfl

theorem take_drop_patch (pre mid post : List Nat) (h4 : mid.length = 4) :
    (pre ++ (mid ++ post)).take pre.length = pre ∧
    (pre ++ (mid ++ post)).drop (pre.length + 4) = post := by
  constructor
  · exact List.take_left pre (mid ++ post)
  · rw [← List.append_assoc]
    have hl : (pre ++ mid).length = pre.length + 4 := by
      rw [List.length_append, h4]
    rw [← hl]
    exact List.drop_left (pre ++ mid) post

theorem packOptHeader_checksum_split (o : OptHeader) :
    ∃ A C, packOptHeader o = A ++ (le32 o.CheckSum ++ C) ∧ A.length = 62 ∧
      packOptHeader (o.setCheckSum 0) = A ++ (le32 0 ++ C) := by
  cases o with
  | h32 o =>
      refine ⟨le8 o.MajorLinkerVersion ++ le8 o.MinorLinkerVersion ++ le32 o.SizeOfCode ++
        le32 o.SizeOfInitializedData ++ le32 o.SizeOfUninitializedData ++
        le32 o.AddressOfEntryPoint ++ le32 o.BaseOfCode ++ le32 o.BaseOfData ++
        le32 o.ImageBase ++ le32 o.SectionAlignment ++ le32 o.FileAlignment ++
        le16 o.MajorOperatingSystemVersion ++ le16 o.MinorOperatingSystemVersion ++
        le16 o.MajorImageVersion ++ le16 o.MinorImageVersion ++
        le16 o.MajorSubsystemVersion ++ le16 o.MinorSubsystemVersion ++
        le32 o.Reserved1 ++ le32 o.SizeOfImage ++ le32 o.SizeOfHeaders,
        le16 o.Subsystem ++ le16 o.DllCharacteristics ++
        le32 o.SizeOfStackReserve ++ le32 o.SizeOfStackCommit ++
        le32 o.SizeOfHeapReserve ++ le32 o.SizeOfHeapCommit ++
        le32 o.LoaderFlags ++ le32 o.NumberOfRvaAndSizes, ?_, ?_, ?_⟩
      · simp [packOptHeader, packOptHeader32, OptHeader.CheckSum, List.append_assoc]
      · simp [le8, le16, le32]
      · simp [packOptHeader, packOptHeader32, OptHeader.setCheckSum, List.append_assoc]
  | h64 o =>
      refine ⟨le8 o.MajorLinkerVersion ++ le8 o.MinorLinkerVersion ++ le32 o.SizeOfCode ++
        le32 o.SizeOfInitializedData ++ le32 o.SizeOfUninitializedData ++
        le32 o.AddressOfEntryPoint ++ le32 o.BaseOfCode ++
        le64 o.ImageBase ++ le32 o.SectionAlignment ++ le32 o.FileAlignment ++
        le16 o.MajorOperatingSystemVersion ++ le16 o.MinorOperatingSystemVersion ++
        le16 o.MajorImageVersion ++ le16 o.MinorImageVersion ++
        le16 o.MajorSubsystemVersion ++ le16 o.MinorSubsystemVersion ++
        le32 o.Reserved1 ++ le32 o.SizeOfImage ++ le32 o.SizeOfHeaders,
        le16 o.Subsystem ++ le16 o.DllCharacteristics ++
        le64 o.SizeOfStackReserve ++ le64 o.SizeOfStackCommit ++
        le64 o.SizeOfHeapReserve ++ le64 o.SizeOfHeapCommit ++
        le32 o.LoaderFlags ++ le32 o.NumberOfRvaAndSizes, ?_, ?_, ?_⟩
      · simp [packOptHeader, packOptHeader64, OptHeader.CheckSum, List.append_assoc]
      · simp [le8, le16, le32, le64]
      · simp [packOptHeader, packOptHeader64, OptHeader.setCheckSum, List.append_assoc]
/-! ## Round-trip support: byte-level inverses -/

theorem le32_leVal : ∀ s : List Nat, s.length = 4 → (∀ b ∈ s, b < 256) →
    le32 (leVal s) = s
  | [b0, b1, b2, b3], _, hb => by
      have h0 : b0 < 256 := hb b0 (by simp)
      have h1 : b1 < 256 := hb b1 (by simp)
      have h2 : b2 < 256 := hb b2 (by simp)
      have h3 : b3 < 256 := hb b3 (by simp)
      simp only [leVal, le32, List.cons.injEq, and_true]
      omega
  | [], h, _ => by simp at h
  | [_], h, _ => by simp at h
  | [_, _], h, _ => by simp at h
  | [_, _, _], h, _ => by simp at h
  | _ :: _ :: _ :: _ :: _ :: _, h, _ => by simp only [List.length_cons] at h; omega

theorem readLE4_bytes (B : List Nat) (pos v : Nat)
    (h : readLE B pos 4 = some v) (hb : ∀ b ∈ B, b < 256) :
    le32 v = pySlice B pos (pos + 4) ∧ pos + 4 ≤ B.length := by
  unfold readLE at h
  by_cases hle : pos + 4 ≤ B.length
  · rw [if_pos hle] at h
    have hv := Option.some.inj h
    subst hv
    refine ⟨le32_leVal _ ?_ ?_, hle⟩
    · rw [pySlice_length]
      omega
    · intro x hx
      exact hb x (pySlice_subset B pos (pos + 4) x hx)
  · rw [if_neg hle] at h
    exact Option.noConfusion h

theorem parseDataDirectories_pack :
    ∀ (n : Nat) (B : List Nat) (pos : Nat) (l : List DataDirectory),
      parseDataDirectories B pos n = some l → (∀ b ∈ B, b < 256) →
      (l.map packDataDirectory).flatten = pySlice B pos (pos + 8 * n)
  | 0, B, pos, l, h, hb => by
      simp only [parseDataDirectories] at h
      have hl := Option.some.inj h
      subst hl
      simp only [List.map_nil, List.flatten_nil, Nat.mul_zero, Nat.add_zero]
      unfold pySlice
      exact (List.drop_eq_nil_of_le (by rw [List.length_take]; omega)).symm
  | n + 1, B, pos, l, h, hb => by
      unfold parseDataDirectories at h
      split at h
      · exact Option.noConfusion h
      · rename_i va hva
        split at h
        · exact Option.noConfusion h
        · rename_i sz hsz
          split at h
          · exact Option.noConfusion h
          · rename_i rest hrest
            have hl := Option.some.inj h
            subst hl
            obtain ⟨hva4, hvale⟩ := readLE4_bytes B pos va hva hb
            obtain ⟨hsz4, hszle⟩ := readLE4_bytes B (pos + 4) sz hsz hb
            have hrec := parseDataDirectories_pack n B (pos + 8) rest hrest hb
            simp only [List.map_cons, List.flatten_cons, packDataDirectory]
            rw [hva4, hsz4, hrec]
            have e1 : pos + 4 + 4 = pos + 8 := by omega
            have e2 : pos + 8 * (n + 1) = pos + 8 + 8 * n := by ring
            rw [e1, e2, List.append_assoc,
              pySlice_concat B (pos + 4) (pos + 8) (pos + 8 + 8 * n) (by omega) (by omega)
                (by omega),
              pySlice_concat B pos (pos + 4) (pos + 8 + 8 * n) (by omega) (by omega) hvale]

/-! ## Round-trip support: transporting `Forall2` with membership -/

theorem forall2_imp_mem {α β : Type} {R S : α → β → Prop} :
    ∀ (l1 : List α) (l2 : List β), List.Forall₂ R l1 l2 →
      (∀ a ∈ l1, ∀ b ∈ l2, R a b → S a b) → List.Forall₂ S l1 l2
  | [], [], _, _ => List.Forall₂.nil
  | a :: l1, b :: l2, h, himp => by
      cases h with
      | cons hab h2 =>
        exact List.Forall₂.cons (himp a (List.mem_cons_self a l1) b (List.mem_cons_self b l2) hab)
          (forall2_imp_mem l1 l2 h2 (fun x hx y hy hr =>
            himp x (List.mem_cons_of_mem a hx) y (List.mem_cons_of_mem b hy) hr))
  | [], _ :: _, h, _ => by cases h
  | _ :: _, [], h, _ => by cases h

/-! ## Round-trip support: the two `store` loops on fully backed sections -/

theorem assign_pieces (fa : Nat) (hfa : fa ≠ 0) :
    ∀ (secs : List PeSection) (offs : Nat),
      (∀ sec ∈ secs, sec.hdr.PointerToRawData ≠ 0 ∧ ∃ d, sec.data = some d) →
      ∃ secs' dp,
        assignOffsets fa secs offs = Except.ok (secs', offs + dp.length) ∧
        sectionPieces fa secs' = Except.ok dp ∧
        List.Forall₂ (fun sec sec' =>
          sec'.data = sec.data ∧
          ∀ d, sec.data = some d →
            offs ≤ sec'.hdr.PointerToRawData ∧
            sec'.hdr.PointerToRawData + d.length ≤ offs + dp.length ∧
            pySlice dp (sec'.hdr.PointerToRawData - offs)
              (sec'.hdr.PointerToRawData - offs + d.length) = d) secs secs'
  | [], offs, hs => by
      refine ⟨[], [], ?_, rfl, List.Forall₂.nil⟩
      simp [assignOffsets]
  | sec :: rest, offs, hs => by
      obtain ⟨hptr, d, hd⟩ := hs sec (List.mem_cons_self sec rest)
      obtain ⟨shdr, sdata, sva, svs⟩ := sec
      simp only [] at hd hptr
      subst hd
      have hrest : ∀ s ∈ rest, s.hdr.PointerToRawData ≠ 0 ∧ ∃ d, s.data = some d :=
        fun s hss => hs s (List.mem_cons_of_mem _ hss)
      obtain ⟨rest', dpr, hassign, hpieces, hforall⟩ :=
        assign_pieces fa hfa rest (offs + pe_align d.length fa) hrest
      have hdle : d.length ≤ pe_align d.length fa := le_pe_align d.length fa hfa
      refine ⟨({ hdr := { shdr with PointerToRawData := offs, SizeOfRawData := pe_align d.length fa }, data := some d, strayVirtualAddress := sva, strayVirtualSize := svs } : PeSection) :: rest', d ++ List.replicate (pe_align d.length fa - d.length) 0 ++ dpr, ?_, ?_, ?_⟩
      · unfold assignOffsets
        rw [if_neg hptr]
        simp only []
        rw [hassign]
        simp only []
        have hlen : offs +
            (d ++ List.replicate (pe_align d.length fa - d.length) 0 ++ dpr).length
            = offs + pe_align d.length fa + dpr.length := by
          simp only [List.length_append, List.length_replicate]
          omega
        rw [hlen]
      · unfold sectionPieces
        simp only []
        rw [hpieces]
      · refine List.Forall₂.cons ⟨rfl, ?_⟩ ?_
        · intro d0 hd0
          simp only [] at hd0
          have hdd : d = d0 := Option.some.inj hd0
          subst hdd
          refine ⟨Nat.le_refl offs, ?_, ?_⟩
          · simp only [List.length_append, List.length_replicate]
            omega
          · rw [Nat.sub_self, Nat.zero_add, pySlice_zero_take, List.append_assoc]
            exact List.take_left d _
        · refine List.Forall₂.imp ?_ hforall
          intro a b hab
          refine ⟨hab.1, ?_⟩
          intro d0 hd0
          obtain ⟨h1, h2, h3⟩ := hab.2 d0 hd0
          have hxlen : (d ++ List.replicate (pe_align d.length fa - d.length) 0).length
              = pe_align d.length fa := by
            simp only [List.length_append, List.length_replicate]
            omega
          refine ⟨by omega, ?_, ?_⟩
          · simp only [List.length_append, List.length_replicate]
            omega
          · rw [pySlice_append_ge _ _ _ _ (by rw [hxlen]; omega), hxlen]
            have e1 : b.hdr.PointerToRawData - offs - pe_align d.length fa
                = b.hdr.PointerToRawData - (offs + pe_align d.length fa) := by omega
            have e2 : b.hdr.PointerToRawData - offs + d0.length - pe_align d.length fa
                = b.hdr.PointerToRawData - (offs + pe_align d.length fa) + d0.length := by
              omega
            rw [e1, e2, h3]
/-- C1 (corrected): the round-trip identity under the qualifications the code
forces.  If `B` parses, every parsed section is file-backed, and the rebuilt
provisional buffer `out0` has even length and a checksum small enough to pack,
then `store` succeeds and returns a buffer whose stored checksum field is
valid (recomputing the checksum over the output with the field zeroed yields
exactly the stored little-endian value), whose per-section raw contents are
byte-for-byte the original slices of `B`, whose trailer is exactly the
original trailer bytes of `B`, and whose data-directory table is
byte-identical to the one in `B` at the same file offset. -/
theorem C1_roundtrip_identity (B : List Nat) (p : PeFile) (out0 : List Nat)
    (hparse : parse_pe B = Except.ok p)
    (hbytes : ∀ b ∈ B, b < 256)
    (hback : ∀ sec ∈ p.sections, sec.hdr.PointerToRawData ≠ 0)
    (hout0 : storeUnpatched p = Except.ok out0)
    (heven : out0.length % 2 = 0)
    (hbound : out0.length + 65535 < 4294967296) :
    ∃ out chk,
      store p = Except.ok out ∧
      pySlice out p.checksum_offs (p.checksum_offs + 4) = le32 chk ∧
      pe_checksum (out.take p.checksum_offs ++ [0, 0, 0, 0] ++
        out.drop (p.checksum_offs + 4)) = some chk ∧
      (∃ sections' offsEnd,
        assignOffsets p.opt_header.FileAlignment p.sections
            (pe_align (headerEnd p) p.opt_header.FileAlignment) =
          Except.ok (sections', offsEnd) ∧
        List.Forall₂ (fun sec sec' =>
          ∀ d, sec.data = some d →
            pySlice out sec'.hdr.PointerToRawData
                (sec'.hdr.PointerToRawData + d.length) = d ∧
            d = pySlice B sec.hdr.PointerToRawData
                (sec.hdr.PointerToRawData + sec.hdr.SizeOfRawData))
          p.sections sections') ∧
      (∃ pre, out = pre ++ p.trailer) ∧
      p.trailer = B.drop p.trailer_offset ∧
      pySlice out (p.dos_stub.length + 26 + p.opt_header.size)
          (p.dos_stub.length + 26 + p.opt_header.size +
            8 * p.data_directories.length) =
        pySlice B (p.dos_stub.length + 26 + p.opt_header.size)
          (p.dos_stub.length + 26 + p.opt_header.size +
            8 * p.data_directories.length) := by
  have inv := parse_pe_inv B p hparse
  have hsf : ∀ sec ∈ p.sections,
      sec.hdr.PointerToRawData ≠ 0 ∧ ∃ d, sec.data = some d := by
    intro sec hs
    exact ⟨hback sec hs, ⟨_, (inv.sec_data sec hs).2 (hback sec hs)⟩⟩
  obtain ⟨secs', dp, hassign, hpieces, hforall⟩ :=
    assign_pieces p.opt_header.FileAlignment inv.fa_ne p.sections
      (pe_align (headerEnd p) p.opt_header.FileAlignment) hsf
  have hsecs_len : p.sections.length = secs'.length := List.Forall₂.length_eq hforall
  have hsu : storeUnpatched p = Except.ok
      (p.dos_stub ++ [0x50, 0x45, 0, 0] ++ packFileHeader p.file_header ++
        le16 p.opt_header.sig ++ packOptHeader (p.opt_header.setCheckSum 0) ++
        (p.data_directories.map packDataDirectory).flatten ++
        (secs'.map (fun sec : PeSection => packSectionHeader sec.hdr)).flatten ++
        List.replicate
          (pe_align (headerEnd p) p.opt_header.FileAlignment - headerEnd p) 0 ++
        dp ++ p.trailer) := by
    unfold storeUnpatched
    cases hvm : check_vm_overlaps p with
    | some e =>
        rw [inv.vm_ok] at hvm
        exact Option.noConfusion hvm
    | none =>
        rw [if_neg inv.fa_ne]
        simp only []
        rw [hassign]
        simp only []
        rw [hpieces]
  have hout0eq : out0 =
      p.dos_stub ++ [0x50, 0x45, 0, 0] ++ packFileHeader p.file_header ++
        le16 p.opt_header.sig ++ packOptHeader (p.opt_header.setCheckSum 0) ++
        (p.data_directories.map packDataDirectory).flatten ++
        (secs'.map (fun sec : PeSection => packSectionHeader sec.hdr)).flatten ++
        List.replicate
          (pe_align (headerEnd p) p.opt_header.FileAlignment - headerEnd p) 0 ++
        dp ++ p.trailer := by
    rw [hsu] at hout0
    exact (Except.ok.inj hout0).symm
  have hchk : pe_checksum out0 = some (foldChecksum (wordSum out0) + out0.length) :=
    pe_checksum_of_even out0 heven
  have hchklt : foldChecksum (wordSum out0) + out0.length < 4294967296 := by
    have := foldChecksum_le (wordSum out0)
    omega
  have hstore : store p = Except.ok
      (out0.take p.checksum_offs ++ le32 (foldChecksum (wordSum out0) + out0.length) ++
        out0.drop (p.checksum_offs + 4)) := by
    unfold store
    rw [hout0]
    simp only []
    rw [hchk]
    simp only []
    rw [if_pos hchklt]
  obtain ⟨A, C, hpack, hAlen, hpack0⟩ := packOptHeader_checksum_split p.opt_header
  have hsplit1 : out0 =
      (p.dos_stub ++ [0x50, 0x45, 0, 0] ++ packFileHeader p.file_header ++
        le16 p.opt_header.sig ++ A) ++
      (le32 0 ++
        (C ++ (p.data_directories.map packDataDirectory).flatten ++
          (secs'.map (fun sec : PeSection => packSectionHeader sec.hdr)).flatten ++
          List.replicate
            (pe_align (headerEnd p) p.opt_header.FileAlignment - headerEnd p) 0 ++
          dp ++ p.trailer)) := by
    rw [hout0eq, hpack0]
    simp only [List.append_assoc]
  have hpre1len : (p.dos_stub ++ [0x50, 0x45, 0, 0] ++ packFileHeader p.file_header ++
      le16 p.opt_header.sig ++ A).length = p.dos_stub.length + 88 := by
    simp only [List.length_append, List.length_cons, List.length_nil,
      packFileHeader_length, le16_length, hAlen]
  have hchoffs : p.checksum_offs =
      (p.dos_stub ++ [0x50, 0x45, 0, 0] ++ packFileHeader p.file_header ++
        le16 p.opt_header.sig ++ A).length := by
    rw [inv.choffs_eq, hpre1len]
  have htakeout0 : out0.take p.checksum_offs =
      p.dos_stub ++ [0x50, 0x45, 0, 0] ++ packFileHeader p.file_header ++
        le16 p.opt_header.sig ++ A := by
    rw [hsplit1, hchoffs]
    exact (take_drop_patch _ _ _ (le32_length _)).1
  have hdropout0 : out0.drop (p.checksum_offs + 4) =
      C ++ (p.data_directories.map packDataDirectory).flatten ++
        (secs'.map (fun sec : PeSection => packSectionHeader sec.hdr)).flatten ++
        List.replicate
          (pe_align (headerEnd p) p.opt_header.FileAlignment - headerEnd p) 0 ++
        dp ++ p.trailer := by
    rw [hsplit1, hchoffs]
    exact (take_drop_patch _ _ _ (le32_length _)).2
  have houteq : out0.take p.checksum_offs ++
      le32 (foldChecksum (wordSum out0) + out0.length) ++
      out0.drop (p.checksum_offs + 4) =
      (p.dos_stub ++ [0x50, 0x45, 0, 0] ++ packFileHeader p.file_header ++
        le16 p.opt_header.sig ++ A) ++
      (le32 (foldChecksum (wordSum out0) + out0.length) ++
        (C ++ (p.data_directories.map packDataDirectory).flatten ++
          (secs'.map (fun sec : PeSection => packSectionHeader sec.hdr)).flatten ++
          List.replicate
            (pe_align (headerEnd p) p.opt_header.FileAlignment - headerEnd p) 0 ++
          dp ++ p.trailer)) := by
    rw [htakeout0, hdropout0]
    simp only [List.append_assoc]
  have htako : (out0.take p.checksum_offs ++
      le32 (foldChecksum (wordSum out0) + out0.length) ++
      out0.drop (p.checksum_offs + 4)).take p.checksum_offs =
      p.dos_stub ++ [0x50, 0x45, 0, 0] ++ packFileHeader p.file_header ++
        le16 p.opt_header.sig ++ A := by
    rw [houteq, hchoffs]
    exact (take_drop_patch _ _ _ (le32_length _)).1
  have hdro : (out0.take p.checksum_offs ++
      le32 (foldChecksum (wordSum out0) + out0.length) ++
      out0.drop (p.checksum_offs + 4)).drop (p.checksum_offs + 4) =
      C ++ (p.data_directories.map packDataDirectory).flatten ++
        (secs'.map (fun sec : PeSection => packSectionHeader sec.hdr)).flatten ++
        List.replicate
          (pe_align (headerEnd p) p.opt_header.FileAlignment - headerEnd p) 0 ++
        dp ++ p.trailer := by
    rw [houteq, hchoffs]
    exact (take_drop_patch _ _ _ (le32_length _)).2
  have hH0split : out0 =
      (p.dos_stub ++ [0x50, 0x45, 0, 0] ++ packFileHeader p.file_header ++
        le16 p.opt_header.sig ++ packOptHeader (p.opt_header.setCheckSum 0) ++
        (p.data_directories.map packDataDirectory).flatten ++
        (secs'.map (fun sec : PeSection => packSectionHeader sec.hdr)).flatten ++
        List.replicate
          (pe_align (headerEnd p) p.opt_header.FileAlignment - headerEnd p) 0) ++
      (dp ++ p.trailer) := by
    rw [hout0eq]
    simp only [List.append_assoc]
  have hH0len : (p.dos_stub ++ [0x50, 0x45, 0, 0] ++ packFileHeader p.file_header ++
      le16 p.opt_header.sig ++ packOptHeader (p.opt_header.setCheckSum 0) ++
      (p.data_directories.map packDataDirectory).flatten ++
      (secs'.map (fun sec : PeSection => packSectionHeader sec.hdr)).flatten ++
      List.replicate
        (pe_align (headerEnd p) p.opt_header.FileAlignment - headerEnd p) 0).length =
      pe_align (headerEnd p) p.opt_header.FileAlignment := by
    simp only [List.length_append, List.length_cons, List.length_nil,
      packFileHeader_length, le16_length, packOptHeader_length, setCheckSum_size,
      packDDs_length, packSecHdrs_length, List.length_replicate]
    have hge := le_pe_align (headerEnd p) p.opt_header.FileAlignment inv.fa_ne
    unfold headerEnd at hge ⊢
    omega
  have hso_ge : p.checksum_offs + 4 ≤
      pe_align (headerEnd p) p.opt_header.FileAlignment := by
    have hge := le_pe_align (headerEnd p) p.opt_header.FileAlignment inv.fa_ne
    have h94 := optHeader_size_ge p.opt_header
    rw [inv.choffs_eq]
    unfold headerEnd at hge ⊢
    omega
  have hddge : p.checksum_offs + 4 ≤ p.dos_stub.length + 26 + p.opt_header.size := by
    have h94 := optHeader_size_ge p.opt_header
    rw [inv.choffs_eq]
    omega
  have hP2split : out0 =
      (p.dos_stub ++ [0x50, 0x45, 0, 0] ++ packFileHeader p.file_header ++
        le16 p.opt_header.sig ++ packOptHeader (p.opt_header.setCheckSum 0)) ++
      ((p.data_directories.map packDataDirectory).flatten ++
        ((secs'.map (fun sec : PeSection => packSectionHeader sec.hdr)).flatten ++
          List.replicate
            (pe_align (headerEnd p) p.opt_header.FileAlignment - headerEnd p) 0 ++
          dp ++ p.trailer)) := by
    rw [hout0eq]
    simp only [List.append_assoc]
  have hP2len : (p.dos_stub ++ [0x50, 0x45, 0, 0] ++ packFileHeader p.file_header ++
      le16 p.opt_header.sig ++ packOptHeader (p.opt_header.setCheckSum 0)).length =
      p.dos_stub.length + 26 + p.opt_header.size := by
    simp only [List.length_append, List.length_cons, List.length_nil,
      packFileHeader_length, le16_length, packOptHeader_length, setCheckSum_size]
  refine ⟨out0.take p.checksum_offs ++
      le32 (foldChecksum (wordSum out0) + out0.length) ++
      out0.drop (p.checksum_offs + 4),
    foldChecksum (wordSum out0) + out0.length, hstore, ?_, ?_, ?_, ?_,
    inv.trailer_eq, ?_⟩
  · rw [houteq, hchoffs, pySlice_append_ge _ _ _ _ (Nat.le_refl _), Nat.sub_self]
    have h4 : (p.dos_stub ++ [0x50, 0x45, 0, 0] ++ packFileHeader p.file_header ++
        le16 p.opt_header.sig ++ A).length + 4 -
        (p.dos_stub ++ [0x50, 0x45, 0, 0] ++ packFileHeader p.file_header ++
        le16 p.opt_header.sig ++ A).length = 4 := by omega
    rw [h4, pySlice_zero_take, take4_le32]
  · rw [htako, hdro]
    have h00 : ([0, 0, 0, 0] : List Nat) = le32 0 := rfl
    rw [h00, List.append_assoc, ← hsplit1]
    exact hchk
  · refine ⟨secs', pe_align (headerEnd p) p.opt_header.FileAlignment + dp.length,
      hassign, ?_⟩
    refine forall2_imp_mem _ _ hforall ?_
    intro sec hsec sec1 hsec1 hrel d hd
    obtain ⟨h1, h2, h3⟩ := hrel.2 d hd
    constructor
    · have hcp : p.checksum_offs + 4 ≤ sec1.hdr.PointerToRawData :=
        le_trans hso_ge h1
      rw [pySlice_drop_shift _ (p.checksum_offs + 4) _ _ hcp, hdro, ← hdropout0,
        ← pySlice_drop_shift out0 (p.checksum_offs + 4) _ _ hcp]
      rw [hH0split, pySlice_append_ge _ _ _ _ (by rw [hH0len]; exact h1), hH0len]
      rw [pySlice_append_lt _ _ _ _ (by omega)]
      have e1 : sec1.hdr.PointerToRawData + d.length -
          pe_align (headerEnd p) p.opt_header.FileAlignment =
          sec1.hdr.PointerToRawData -
            pe_align (headerEnd p) p.opt_header.FileAlignment + d.length := by
        omega
      rw [e1]
      exact h3
    · have hsd := (inv.sec_data sec hsec).2 (hback sec hsec)
      rw [hd] at hsd
      exact Option.some.inj hsd
  · refine ⟨p.dos_stub ++ [0x50, 0x45, 0, 0] ++ packFileHeader p.file_header ++
      le16 p.opt_header.sig ++ A ++
      le32 (foldChecksum (wordSum out0) + out0.length) ++ C ++
      (p.data_directories.map packDataDirectory).flatten ++
      (secs'.map (fun sec : PeSection => packSectionHeader sec.hdr)).flatten ++
      List.replicate
        (pe_align (headerEnd p) p.opt_header.FileAlignment - headerEnd p) 0 ++
      dp, ?_⟩
    rw [houteq]
    simp only [List.append_assoc]
  · rw [pySlice_drop_shift _ (p.checksum_offs + 4) _ _ hddge, hdro, ← hdropout0,
      ← pySlice_drop_shift out0 (p.checksum_offs + 4) _ _ hddge]
    rw [hP2split, pySlice_append_ge _ _ _ _ (le_of_eq hP2len), hP2len, Nat.sub_self]
    have e2 : p.dos_stub.length + 26 + p.opt_header.size +
        8 * p.data_directories.length -
        (p.dos_stub.length + 26 + p.opt_header.size) =
        8 * p.data_directories.length := by omega
    rw [e2, pySlice_zero_take, List.take_left' (packDDs_length _)]
    exact parseDataDirectories_pack p.data_directories.length B
      (p.dos_stub.length + 26 + p.opt_header.size) p.data_directories
      inv.dds_eq hbytes

set_option maxRecDepth 1000000 in
theorem C1_roundtrip_identity_witness :
    ∃ out chk,
      store backedImage = Except.ok out ∧
      pySlice out backedImage.checksum_offs (backedImage.checksum_offs + 4) = le32 chk ∧
      pe_checksum (out.take backedImage.checksum_offs ++ [0, 0, 0, 0] ++
        out.drop (backedImage.checksum_offs + 4)) = some chk ∧
      (∃ sections' offsEnd,
        assignOffsets backedImage.opt_header.FileAlignment backedImage.sections
            (pe_align (headerEnd backedImage) backedImage.opt_header.FileAlignment) =
          Except.ok (sections', offsEnd) ∧
        List.Forall₂ (fun sec sec' =>
          ∀ d, sec.data = some d →
            pySlice out sec'.hdr.PointerToRawData
                (sec'.hdr.PointerToRawData + d.length) = d ∧
            d = pySlice backedImageBytes sec.hdr.PointerToRawData
                (sec.hdr.PointerToRawData + sec.hdr.SizeOfRawData))
          backedImage.sections sections') ∧
      (∃ pre, out = pre ++ backedImage.trailer) ∧
      backedImage.trailer = backedImageBytes.drop backedImage.trailer_offset ∧
      pySlice out (backedImage.dos_stub.length + 26 + backedImage.opt_header.size)
          (backedImage.dos_stub.length + 26 + backedImage.opt_header.size +
            8 * backedImage.data_directories.length) =
        pySlice backedImageBytes
          (backedImage.dos_stub.length + 26 + backedImage.opt_header.size)
          (backedImage.dos_stub.length + 26 + backedImage.opt_header.size +
            8 * backedImage.data_directories.length) :=
  C1_roundtrip_identity backedImageBytes backedImage backedImageBytes
    (by decide) (by decide) (by decide) (by decide) (by decide) (by decide)

end PeTools
